import Mathlib

/-!
Verification development for the VolunteeringPortal repository
(src/timecardEntry/app.py and src/adminDashboard/admin.py).

The development shallowly embeds the persistence-relevant parts of the
two Streamlit apps:

* the shared PostgreSQL state (projects and timesheets tables) as a
  pure `DB` value; SERIAL primary keys become explicit counters,
* the weekly grid reconciler `VolunteerTimesheet.save_to_database`
  (app.py lines 1009-1094),
* the week-window loader `VolunteerTimesheet.create_timesheet_dataframe`
  (app.py lines 682-773),
* the statistics queries of `VolunteerTimesheet.render_statistics`
  (app.py lines 1096-1240),
* the admin operations `AdminDashboard.approve_timesheet`
  (admin.py lines 284-297) and `AdminDashboard.delete_project`
  (admin.py lines 235-260),
* the week navigation state (app.py lines 217-218 and 677-680).

Dates are proleptic-Gregorian ordinals (`Int`), matching Python's
`date.toordinal()`: ordinal 1 is 0001-01-01, a Monday, and
`date.weekday()` (Monday = 0 .. Sunday = 6) is `(d + 6) % 7`.
Hours (SQL `DECIMAL(5,2)`, Python floats) are embedded as `ℚ`.
-/

namespace VolunteeringPortal

/-- Timesheet status strings used by the apps: the volunteer writes
"Saved" (Save button) or "Pending" (Submit button), the admin writes
"Approved". -/
inductive Status where
  | Saved : Status
  | Pending : Status
  | Approved : Status
deriving DecidableEq, Repr

/-- One row of the timesheets table:
`timesheets(id, volunteer_id, project_id, date, hours, status)`.
`tid` is the SERIAL primary key. `submitted_at` is not modelled (no
claim mentions it). -/
structure Fact where
  tid : Nat
  volunteer : Nat
  project : Nat
  date : Int
  hours : ℚ
  status : Status
deriving DecidableEq, Repr

/-- One row of the projects table: `projects(id, name)`.
`created_by` and `created_at` are not modelled (no claim mentions them). -/
structure Project where
  pid : Nat
  name : String
deriving DecidableEq, Repr

/-- The persisted state shared by both apps: the projects and
timesheets tables, plus the next value of each SERIAL id sequence. -/
structure DB where
  projects : List Project
  timesheets : List Fact
  nextProjectId : Nat
  nextTimesheetId : Nat
deriving DecidableEq, Repr

/-- Natural key of a timesheet row: (volunteer_id, project_id, date).
The reconciler upserts on this key. -/
def factKey (f : Fact) : Nat × Nat × Int :=
  (f.volunteer, f.project, f.date)

/-- Well-formedness of a database state.  These are exactly the
constraints the schema enforces or the data model maintains:
ids are SERIAL primary keys (unique, below the sequence counter),
project names are UNIQUE, and the reconciler keeps at most one
timesheet row per natural key (spec section 3: "at most one fact per
key"). -/
structure DB.WF (db : DB) : Prop where
  tidsNodup : (db.timesheets.map Fact.tid).Nodup
  tidsLt : ∀ f ∈ db.timesheets, f.tid < db.nextTimesheetId
  keysNodup : (db.timesheets.map factKey).Nodup
  pidsNodup : (db.projects.map Project.pid).Nodup
  pidsLt : ∀ p ∈ db.projects, p.pid < db.nextProjectId
  namesNodup : (db.projects.map Project.name).Nodup

/-! ## Week navigation (app.py lines 217-218, 677-680)

`st.session_state.current_week = datetime.now() - timedelta(days=datetime.now().weekday())`
and
`get_week_dates` returns `[start_of_week + timedelta(days=i) for i in range(7)]`. -/

/-- Python's `datetime.weekday()`: Monday = 0 .. Sunday = 6, on
proleptic-Gregorian ordinals (ordinal 1 = 0001-01-01, a Monday). -/
def weekday (d : Int) : Int := (d + 6) % 7

/-- The initial `current_week` session value (app.py line 218):
`datetime.now() - timedelta(days=datetime.now().weekday())`. -/
def current_week_of (today : Int) : Int := today - weekday today

/-- `VolunteerTimesheet.get_week_dates` (app.py lines 677-680):
the seven consecutive dates starting at `current_week`. -/
def get_week_dates (start_of_week : Int) : List Int :=
  (List.range 7).map (fun i => start_of_week + i)

/-! ## The grid and the reconciler (app.py lines 1009-1094) -/

/-- One editable row of the weekly grid: a project name and the seven
day-column hour values (index 0 = the anchor date's column). -/
structure Slot where
  project : String
  hours : List ℚ
deriving DecidableEq, Repr

/-- One long-form row of the melted grid: `(Project, DayDate, Hours)`
with the day column index resolved. -/
structure Cell where
  project : String
  day : Nat
  hours : ℚ
deriving DecidableEq, Repr

/-- `df.melt(...)` followed by the filter
`melted_df[(melted_df["Hours"] > 0) & (melted_df["Project"] != "")]`
(app.py lines 1023-1030).  pandas `melt` stacks one day column at a
time, each contributing all slots in grid order, so the surviving
cells appear in day-major order. -/
def meltFilter (g : List Slot) : List Cell :=
  (List.range 7).flatMap (fun d =>
    g.filterMap (fun s =>
      let h := s.hours.getD d 0
      if 0 < h ∧ s.project ≠ "" then some ⟨s.project, d, h⟩ else none))

/-- Look a project up by name:
`SELECT id FROM projects WHERE name = %s` (app.py line 1050). -/
def findProject (ps : List Project) (name : String) : Option Project :=
  ps.find? (fun p => p.name == name)

/-- Resolve or create the project for one cell (app.py lines 1050-1058):
select by name, and if absent
`INSERT INTO projects (name) VALUES (%s) RETURNING id`. -/
def resolveProject (db : DB) (name : String) : DB × Nat :=
  match findProject db.projects name with
  | some p => (db, p.pid)
  | none =>
      ({ db with
          projects := db.projects ++ [⟨db.nextProjectId, name⟩],
          nextProjectId := db.nextProjectId + 1 },
        db.nextProjectId)

/-- The natural-key test used by
`SELECT id FROM timesheets WHERE volunteer_id = %s AND project_id = %s AND date = %s`
(app.py lines 1064-1067). -/
def factKeyMatches (vol pid : Nat) (d : Int) (f : Fact) : Bool :=
  f.volunteer == vol && f.project == pid && f.date == d

/-- Upsert one fact (app.py lines 1063-1084): select the existing row
by natural key; if found,
`UPDATE timesheets SET hours = %s, status = %s ... WHERE id = %s`,
else `INSERT INTO timesheets (volunteer_id, project_id, date, hours, status) VALUES ...`. -/
def upsertFact (db : DB) (vol pid : Nat) (d : Int) (h : ℚ) (st : Status) : DB :=
  match db.timesheets.find? (factKeyMatches vol pid d) with
  | some f =>
      { db with timesheets :=
          db.timesheets.map (fun f' =>
            if f'.tid = f.tid then { f' with hours := h, status := st } else f') }
  | none =>
      { db with
          timesheets := db.timesheets ++ [⟨db.nextTimesheetId, vol, pid, d, h, st⟩],
          nextTimesheetId := db.nextTimesheetId + 1 }

/-- The body of the per-row loop of `save_to_database`
(app.py lines 1048-1084). -/
def saveStep (vol : Nat) (anchor : Int) (st : Status) (db : DB) (c : Cell) : DB :=
  upsertFact (resolveProject db c.project).1 vol (resolveProject db c.project).2
    (anchor + c.day) c.hours st

/-- `VolunteerTimesheet.save_to_database` (app.py lines 1009-1094),
success path: melt and filter the grid, then upsert each surviving
cell in order.  An empty melted frame returns early with no writes,
which coincides with folding over the empty list. -/
def save_to_database (db : DB) (vol : Nat) (anchor : Int) (g : List Slot)
    (st : Status) : DB :=
  (meltFilter g).foldl (saveStep vol anchor st) db

/-! ## The reconciler with failing writes (app.py lines 1039-1094)

The save runs inside one transaction (`conn.autocommit = False`);
an exception from any statement reaches the handler, which calls
`conn.rollback()` (discarding every uncommitted write of the batch)
and shows `st.error(...)`.  The model threads a write counter and an
oracle `failAt`: the write with that index raises. -/

/-- Perform the `n`-th write of the batch, raising iff the oracle says so. -/
def tryWrite (failAt : Option Nat) (n : Nat) : Except Unit Nat :=
  if failAt = some n then .error () else .ok (n + 1)

/-- One loop iteration of `save_to_database` with fallible writes:
the project INSERT (when taken) and the timesheet UPDATE or INSERT
each count as one write, in statement order; a failed write raises
before changing any state of its own. -/
def saveStepExc (vol : Nat) (anchor : Int) (st : Status) (failAt : Option Nat)
    (acc : DB × Nat) (c : Cell) : Except Unit (DB × Nat) :=
  match findProject acc.1.projects c.project with
  | some p =>
      match tryWrite failAt acc.2 with
      | .error e => .error e
      | .ok n₂ => .ok (upsertFact acc.1 vol p.pid (anchor + c.day) c.hours st, n₂)
  | none =>
      match tryWrite failAt acc.2 with
      | .error e => .error e
      | .ok n₁ =>
          match tryWrite failAt n₁ with
          | .error e => .error e
          | .ok n₂ =>
              .ok (upsertFact
                { acc.1 with
                    projects := acc.1.projects ++ [⟨acc.1.nextProjectId, c.project⟩],
                    nextProjectId := acc.1.nextProjectId + 1 }
                vol acc.1.nextProjectId (anchor + c.day) c.hours st, n₂)

/-- `save_to_database` with the transaction wrapper (app.py lines
1039-1094): on success the batch is committed and the function
returns normally (`true`); on any write error the handler rolls the
whole transaction back to the pre-invocation state and reports an
error (`false`). -/
def save_to_database_exc (db : DB) (vol : Nat) (anchor : Int) (g : List Slot)
    (st : Status) (failAt : Option Nat) : DB × Bool :=
  match (meltFilter g).foldlM (saveStepExc vol anchor st failAt) (db, 0) with
  | .ok res => (res.1, true)
  | .error _ => (db, false)

/-! ## Admin operations (admin.py) -/

/-- `AdminDashboard.approve_timesheet` (admin.py lines 284-297):
`UPDATE timesheets SET status = 'Approved' WHERE id = %s`, commit,
and return `(True, "Timesheet approved successfully.")` whether or not
any row matched. -/
def approve_timesheet (db : DB) (tid : Nat) : DB × Bool × String :=
  ({ db with timesheets :=
      db.timesheets.map (fun f =>
        if f.tid = tid then { f with status := .Approved } else f) },
    true, "Timesheet approved successfully.")

/-- `AdminDashboard.delete_project` (admin.py lines 235-260): count
`timesheets t JOIN projects p ON t.project_id = p.id WHERE p.name = %s`;
if the count is positive refuse with the cannot-delete message, else
`DELETE FROM projects WHERE name = %s`. -/
def delete_project (db : DB) (name : String) : DB × Bool × String :=
  let joined := db.timesheets.flatMap (fun f =>
    db.projects.filter (fun p => p.pid == f.project && p.name == name))
  if 0 < joined.length then
    (db, false, "Cannot delete project that has hours logged against it.")
  else
    ({ db with projects := db.projects.filter (fun p => p.name != name) },
      true, "Project " ++ name ++ " deleted successfully.")

/-! ## The week-window loader (app.py lines 682-773) -/

/-- The week's facts for one volunteer:
`SELECT t.date, p.name as project, t.hours FROM timesheets t ...
WHERE t.volunteer_id = %s AND t.date BETWEEN %s AND %s`
restricted to the timesheets side; the join is applied next. -/
def week_facts (db : DB) (vol : Nat) (anchor : Int) : List Fact :=
  db.timesheets.filter (fun f =>
    f.volunteer == vol && decide (anchor ≤ f.date) && decide (f.date ≤ anchor + 6))

/-- The loader's query rows `(date, project name, hours)`: the inner
join `JOIN projects p ON t.project_id = p.id` drops facts whose
project id has no projects row. -/
def week_entries (db : DB) (vol : Nat) (anchor : Int) : List (Int × String × ℚ) :=
  (week_facts db vol anchor).filterMap (fun f =>
    (db.projects.find? (fun p => p.pid == f.project)).map
      (fun p => (f.date, p.name, f.hours)))

/-- Insert a string into an ascending-sorted list (helper for the
sorted pivot index). -/
def insertAsc (x : String) : List String → List String
  | [] => [x]
  | y :: ys => if x ≤ y then x :: y :: ys else y :: insertAsc x ys

/-- Ascending insertion sort on strings: pandas `pivot_table` sorts
its index (the project names) lexicographically. -/
def sortAsc (l : List String) : List String := l.foldr insertAsc []

/-- The pivot index: the distinct project names of the week's entries,
sorted (pandas `pivot_table(index="project", ...)`). -/
def pivotNames (es : List (Int × String × ℚ)) : List String :=
  sortAsc (es.map (fun e => e.2.1)).dedup

/-- One pivot value: `aggfunc="sum", fill_value=0` over the entries of
one project name and one calendar date. -/
def pivotValue (es : List (Int × String × ℚ)) (name : String) (d : Int) : ℚ :=
  ((es.filter (fun e => e.2.1 == name && e.1 == d)).map (fun e => e.2.2)).sum

/-- A blank template row of the 5-row grid: empty project, zeros. -/
def blankSlot : Slot := ⟨"", List.replicate 7 0⟩

/-- `VolunteerTimesheet.create_timesheet_dataframe` (app.py lines
682-773): start from the blank 5-row template; if the week has
persisted entries, pivot them into day columns (index sorted by
project name), keep the template rows whose project name is not among
the pivoted names (the template names are all `""`), concatenate
pivoted rows before template rows, and truncate to 5 rows when the
concatenation exceeds 5. -/
def create_timesheet_dataframe (db : DB) (vol : Nat) (anchor : Int) : List Slot :=
  let es := week_entries db vol anchor
  if es.isEmpty then List.replicate 5 blankSlot
  else
    let rows := (pivotNames es).map (fun n =>
      Slot.mk n ((List.range 7).map (fun (j : Nat) => pivotValue es n (anchor + (j : Int)))))
    let template := if (pivotNames es).contains "" then [] else List.replicate 5 blankSlot
    let result := rows ++ template
    if 5 < result.length then result.take 5 else result

/-- The non-blank cells of a grid, as (project, day index, hours)
triples: the grid cells holding a positive hour value. -/
def posCells (g : List Slot) : List (String × Nat × ℚ) :=
  g.flatMap (fun s =>
    (List.range 7).filterMap (fun d =>
      let h := s.hours.getD d 0
      if 0 < h then some (s.project, d, h) else none))

/-! ## The statistics queries (app.py lines 1096-1240) -/

/-- The facts feeding the Approved-filtered statistics:
`WHERE status = 'Approved' AND volunteer_id = %s`. -/
def approved_vol_facts (db : DB) (vol : Nat) : List Fact :=
  db.timesheets.filter (fun f => f.status == Status.Approved && f.volunteer == vol)

/-- All of a volunteer's facts, any status: `WHERE volunteer_id = %s`. -/
def vol_facts (db : DB) (vol : Nat) : List Fact :=
  db.timesheets.filter (fun f => f.volunteer == vol)

/-- Total Volunteer Hours (app.py line 1116):
`SELECT SUM(hours) FROM timesheets WHERE status = 'Approved' AND volunteer_id = %s`,
with SQL NULL (empty sum) read back as 0. -/
def total_hours (db : DB) (vol : Nat) : ℚ :=
  ((approved_vol_facts db vol).map Fact.hours).sum

/-- Look a project's name up by id, for the joins of the statistics
queries. -/
def project_name_of (db : DB) (pid : Nat) : Option String :=
  (db.projects.find? (fun p => p.pid == pid)).map Project.name

/-- The joined rows `(project name, hours)` of the Approved facts of
one volunteer, as produced by
`FROM timesheets t JOIN projects p ON t.project_id = p.id
WHERE t.status = 'Approved' AND t.volunteer_id = %s`. -/
def approved_entries (db : DB) (vol : Nat) : List (String × ℚ) :=
  (approved_vol_facts db vol).filterMap (fun f =>
    (project_name_of db f.project).map (fun n => (n, f.hours)))

/-- Group totals over the joined rows: one `(name, SUM(hours))` pair
per distinct project name, in first-occurrence order. -/
def grouped_totals (es : List (String × ℚ)) : List (String × ℚ) :=
  (es.map Prod.fst).dedup.map (fun n =>
    (n, ((es.filter (fun e => e.1 == n)).map Prod.snd).sum))

/-- Insert a `(name, total)` pair into a list sorted by descending
total (stable, so earlier rows win ties, matching an arbitrary
SQL tie order fixed once). -/
def insertDescQ (x : String × ℚ) : List (String × ℚ) → List (String × ℚ)
  | [] => [x]
  | y :: ys => if y.2 < x.2 then x :: y :: ys else y :: insertDescQ x ys

/-- Sort group totals by descending total: `ORDER BY total_hours DESC`. -/
def sortDescQ (l : List (String × ℚ)) : List (String × ℚ) := l.foldr insertDescQ []

/-- Project-wise distribution (app.py lines 1179-1186): per-project
Approved totals, ordered by descending total. -/
def project_totals (db : DB) (vol : Nat) : List (String × ℚ) :=
  sortDescQ (grouped_totals (approved_entries db vol))

/-- Most Active Project (app.py lines 1120-1130): the same grouped
query with `LIMIT 1`, and "N/A" when there are no rows. -/
def most_active_project (db : DB) (vol : Nat) : String :=
  match project_totals db vol with
  | [] => "N/A"
  | e :: _ => e.1

/-- Number of Weeks Active (app.py lines 1133-1139):
`SELECT MIN(date), MAX(date) FROM timesheets WHERE volunteer_id = %s`
(no status filter), then `max((max_date - min_date).days // 7, 1)`,
and 1 when the volunteer has no rows at all. -/
def num_weeks (db : DB) (vol : Nat) : Int :=
  match (vol_facts db vol).map Fact.date with
  | [] => 1
  | d :: ds => max ((ds.foldl max d - ds.foldl min d) / 7) 1

/-- Avg Weekly Hours (app.py line 1141): `total_hours / num_weeks`. -/
def avg_weekly_hours (db : DB) (vol : Nat) : ℚ :=
  total_hours db vol / (num_weeks db vol : ℚ)

/-- Insert an `(Int, total)` pair into a list sorted by descending
date key (for `ORDER BY date DESC`). -/
def insertDescI (x : Int × ℚ) : List (Int × ℚ) → List (Int × ℚ)
  | [] => [x]
  | y :: ys => if y.1 < x.1 then x :: y :: ys else y :: insertDescI x ys

/-- Sort `(date, total)` rows by descending date. -/
def sortDescI (l : List (Int × ℚ)) : List (Int × ℚ) := l.foldr insertDescI []

/-- Daily trend (app.py lines 1149-1156):
`SELECT date, SUM(hours) FROM timesheets WHERE volunteer_id = %s
GROUP BY date ORDER BY date DESC LIMIT 30` — note: no status filter. -/
def daily_totals (db : DB) (vol : Nat) : List (Int × ℚ) :=
  (sortDescI (((vol_facts db vol).map Fact.date).dedup.map (fun d =>
    (d, (((vol_facts db vol).filter (fun f => f.date == d)).map Fact.hours).sum)))).take 30

/-- Postgres `DATE_TRUNC('week', date)`: the Monday of the ISO week. -/
def week_trunc (d : Int) : Int := d - weekday d

/-- Weekly trend (app.py lines 1164-1171):
`SELECT DATE_TRUNC('week', date) AS week, SUM(hours) FROM timesheets
WHERE status = 'Approved' AND volunteer_id = %s
GROUP BY week ORDER BY week DESC LIMIT 30`. -/
def weekly_totals (db : DB) (vol : Nat) : List (Int × ℚ) :=
  (sortDescI (((approved_vol_facts db vol).map (fun f => week_trunc f.date)).dedup.map
    (fun w =>
      (w, (((approved_vol_facts db vol).filter (fun f => week_trunc f.date == w)).map
        Fact.hours).sum)))).take 30

/-- Restriction of a database to its Approved timesheet rows; the
reference point for "computed only from Approved facts". -/
def approvedOnly (db : DB) : DB :=
  { db with timesheets := db.timesheets.filter (fun f => f.status == Status.Approved) }

/-! ## Derived notions used by the verification -/

/-- The persisted fact at one natural key, as the reconciler's SELECT
sees it (the first matching row). -/
def factAt (db : DB) (vol pid : Nat) (d : Int) : Option Fact :=
  db.timesheets.find? (factKeyMatches vol pid d)

/-- The hours of the last melted cell of a given project name and day
column — the value that wins under the reconciler's last-write-wins
processing order. -/
def lastCell (cs : List Cell) (name : String) (d : Nat) : Option ℚ :=
  ((cs.filter (fun c => c.project == name && c.day == d)).getLast?).map Cell.hours

/-- A fact `f` sits at the key that cell `c` resolves to in database
`D` (for volunteer `vol` and week anchor `anchor`). -/
def hitBy (vol : Nat) (anchor : Int) (D : DB) (c : Cell) (f : Fact) : Prop :=
  ∃ p, findProject D.projects c.project = some p ∧
    f.project = p.pid ∧ f.date = anchor + c.day ∧ f.volunteer = vol

/-- Replay invariant for idempotence: a current fact and its
counterpart in the target database `D` share id and natural key, and
either already agree on hours and status, or the counterpart's key is
still hit by some unprocessed cell of `cs`. -/
def relExcept (vol : Nat) (anchor : Int) (D : DB) (cs : List Cell) (f g : Fact) : Prop :=
  f.tid = g.tid ∧ f.volunteer = g.volunteer ∧ f.project = g.project ∧ f.date = g.date ∧
    ((f.hours = g.hours ∧ f.status = g.status) ∨ ∃ c ∈ cs, hitBy vol anchor D c g)

/-- The grid slots carrying project name `P` with a positive hour
value in day column `d`, in grid order. -/
def cellsAt (g : List Slot) (P : String) (d : Nat) : List Slot :=
  g.filter (fun s => s.project == P && decide (0 < s.hours.getD d 0))

/-- Database state for the C1 counterexample: one project "P" and one
already-Approved fact for volunteer 1 on date 10. -/
def dbC1 : DB := ⟨[⟨1, "P"⟩], [⟨1, 1, 1, 10, 2, .Approved⟩], 2, 2⟩

/-- Database state for the C2 counterexample: volunteer 1 has one
Pending and one Saved fact, 14 days apart, and nothing Approved. -/
def dbC2 : DB := ⟨[⟨1, "P"⟩], [⟨1, 1, 1, 100, 2, .Pending⟩, ⟨2, 1, 1, 114, 3, .Saved⟩], 2, 3⟩

/-- The empty database with both id sequences at 1, as
`initialize_database` would leave a fresh schema with no rows. -/
def emptyDB : DB := ⟨[], [], 1, 1⟩

/-! ## Basic lemmas about the reconciler -/

/-- Every timesheet row of an upsert result is either an untouched old
row, or carries the hour value and status the upsert wrote. -/
lemma mem_upsertFact {db : DB} {vol pid : Nat} {d : Int} {h : ℚ} {st : Status}
    {f' : Fact} (hmem : f' ∈ (upsertFact db vol pid d h st).timesheets) :
    f' ∈ db.timesheets ∨ (f'.hours = h ∧ f'.status = st) := by
  unfold upsertFact at hmem
  cases hfind : db.timesheets.find? (factKeyMatches vol pid d) with
  | some f =>
      rw [hfind] at hmem
      simp only [List.mem_map] at hmem
      obtain ⟨g, hg, heq⟩ := hmem
      by_cases htid : g.tid = f.tid
      · right
        rw [← heq, if_pos htid]
        exact ⟨rfl, rfl⟩
      · left
        rw [← heq, if_neg htid]
        exact hg
  | none =>
      rw [hfind] at hmem
      simp only [List.mem_append, List.mem_singleton] at hmem
      rcases hmem with hmem | hmem
      · exact Or.inl hmem
      · right
        rw [hmem]
        exact ⟨rfl, rfl⟩

/-- Every timesheet row after one reconciler loop iteration is either
an untouched old row or carries the iteration's written status. -/
lemma mem_saveStep_status {vol : Nat} {anchor : Int} {st : Status} {db : DB}
    {c : Cell} {f' : Fact} (hmem : f' ∈ (saveStep vol anchor st db c).timesheets) :
    f' ∈ db.timesheets ∨ f'.status = st := by
  unfold saveStep at hmem
  have hpr : (resolveProject db c.project).1.timesheets = db.timesheets := by
    unfold resolveProject
    cases findProject db.projects c.project <;> rfl
  rcases mem_upsertFact hmem with hold | hnew
  · rw [hpr] at hold
    exact Or.inl hold
  · exact Or.inr hnew.2

/-- Every timesheet row after a save is either an untouched old row or
carries the save's status argument. -/
lemma mem_save_status {vol : Nat} {anchor : Int} {st : Status} :
    ∀ {cs : List Cell} {db : DB} {f' : Fact},
      f' ∈ (cs.foldl (saveStep vol anchor st) db).timesheets →
      f' ∈ db.timesheets ∨ f'.status = st := by
  intro cs
  induction cs with
  | nil => intro db f' hmem; exact Or.inl hmem
  | cons c cs ih =>
      intro db f' hmem
      rcases ih hmem with hstep | hst
      · exact mem_saveStep_status hstep
      · exact Or.inr hst

/-! ## Key and id bookkeeping -/

/-- Unfolding of the natural-key test. -/
lemma factKeyMatches_iff {vol pid : Nat} {d : Int} {f : Fact} :
    factKeyMatches vol pid d f = true ↔
      f.volunteer = vol ∧ f.project = pid ∧ f.date = d := by
  simp [factKeyMatches, and_assoc]

/-- The natural-key test only looks at the key fields. -/
lemma factKeyMatches_congr {f g : Fact} (h1 : f.volunteer = g.volunteer)
    (h2 : f.project = g.project) (h3 : f.date = g.date) (vol pid : Nat) (d : Int) :
    factKeyMatches vol pid d f = factKeyMatches vol pid d g := by
  simp [factKeyMatches, h1, h2, h3]

/-- In a well-formed state, timesheet rows are determined by their id. -/
lemma tid_inj {db : DB} (hwf : db.WF) {f g : Fact} (hf : f ∈ db.timesheets)
    (hg : g ∈ db.timesheets) (h : f.tid = g.tid) : f = g :=
  List.inj_on_of_nodup_map hwf.tidsNodup hf hg h

/-- In a well-formed state, timesheet rows are determined by their
natural key. -/
lemma key_inj {db : DB} (hwf : db.WF) {f g : Fact} (hf : f ∈ db.timesheets)
    (hg : g ∈ db.timesheets) (h : factKey f = factKey g) : f = g :=
  List.inj_on_of_nodup_map hwf.keysNodup hf hg h

/-- In a well-formed state, project rows are determined by their id. -/
lemma pid_inj {db : DB} (hwf : db.WF) {p q : Project} (hp : p ∈ db.projects)
    (hq : q ∈ db.projects) (h : p.pid = q.pid) : p = q :=
  List.inj_on_of_nodup_map hwf.pidsNodup hp hq h

/-- A successful name lookup returns a member row with that name. -/
lemma findProject_some {ps : List Project} {name : String} {p : Project}
    (h : findProject ps name = some p) : p ∈ ps ∧ p.name = name := by
  refine ⟨List.mem_of_find?_eq_some h, ?_⟩
  have := List.find?_some h
  simpa using this

/-- A failed name lookup means no row has that name. -/
lemma findProject_none {ps : List Project} {name : String}
    (h : findProject ps name = none) : ∀ p ∈ ps, p.name ≠ name := by
  intro p hp
  have := List.find?_eq_none.mp h p hp
  simpa using this

/-- A successful name lookup survives appending more rows. -/
lemma findProject_append_some {ps : List Project} {name : String} {p : Project}
    (h : findProject ps name = some p) (ps' : List Project) :
    findProject (ps ++ ps') name = some p := by
  unfold findProject at h ⊢
  rw [List.find?_append, h]
  rfl

/-- After a failed lookup, looking in an extended table searches only
the appended rows. -/
lemma findProject_append_none {ps : List Project} {name : String}
    (h : findProject ps name = none) (ps' : List Project) :
    findProject (ps ++ ps') name = findProject ps' name := by
  unfold findProject at h ⊢
  rw [List.find?_append, h]
  rfl

/-- A successful key lookup returns a member row carrying that key. -/
lemma factAt_some {db : DB} {vol pid : Nat} {d : Int} {f : Fact}
    (h : factAt db vol pid d = some f) :
    f ∈ db.timesheets ∧ f.volunteer = vol ∧ f.project = pid ∧ f.date = d := by
  refine ⟨List.mem_of_find?_eq_some h, ?_⟩
  exact factKeyMatches_iff.mp (List.find?_some h)

/-- `find?` commutes with a map that does not disturb the predicate. -/
lemma find?_map_pred {α : Type} {p : α → Bool} {G : α → α}
    (hG : ∀ x, p (G x) = p x) :
    ∀ {l : List α} {a : α}, l.find? p = some a → (l.map G).find? p = some (G a) := by
  intro l
  induction l with
  | nil => intro a h; cases h
  | cons x xs ih =>
      intro a h
      by_cases hx : p x = true
      · rw [List.find?_cons_of_pos xs hx] at h
        rw [List.map_cons, List.find?_cons_of_pos (xs.map G) (by rw [hG]; exact hx)]
        rw [← Option.some_inj.mp h]
      · rw [List.find?_cons_of_neg xs hx] at h
        rw [List.map_cons, List.find?_cons_of_neg (xs.map G) (by rw [hG]; exact hx)]
        exact ih h

/-- The UPDATE row transformer of the reconciler preserves id and
natural key. -/
lemma updRow_fields (t : Nat) (h : ℚ) (st : Status) (f' : Fact) :
    ((if f'.tid = t then { f' with hours := h, status := st } else f') : Fact).tid = f'.tid ∧
    ((if f'.tid = t then { f' with hours := h, status := st } else f') : Fact).volunteer = f'.volunteer ∧
    ((if f'.tid = t then { f' with hours := h, status := st } else f') : Fact).project = f'.project ∧
    ((if f'.tid = t then { f' with hours := h, status := st } else f') : Fact).date = f'.date := by
  by_cases ht : f'.tid = t <;> simp [ht]

/-- Mapping a field-preserving transformer leaves a projected map
unchanged. -/
lemma map_comp_of_ptwise {α β : Type} {f : α → β} {G : α → α}
    (h : ∀ x, f (G x) = f x) : ∀ l : List α, (l.map G).map f = l.map f := by
  intro l
  induction l with
  | nil => rfl
  | cons a l ih => rw [List.map_cons, List.map_cons, List.map_cons, h, ih]

/-! ## Well-formedness preservation -/

/-- Upserting preserves well-formedness. -/
lemma WF_upsertFact {db : DB} (hwf : db.WF) (vol pid : Nat) (d : Int) (h : ℚ)
    (st : Status) : (upsertFact db vol pid d h st).WF := by
  unfold upsertFact
  cases hts : db.timesheets.find? (factKeyMatches vol pid d) with
  | some f =>
      have htid : ∀ x : Fact,
          ((if x.tid = f.tid then { x with hours := h, status := st } else x) : Fact).tid
            = x.tid := fun x => (updRow_fields f.tid h st x).1
      have hkey : ∀ x : Fact,
          factKey ((if x.tid = f.tid then { x with hours := h, status := st } else x) : Fact)
            = factKey x := by
        intro x
        obtain ⟨-, h2, h3, h4⟩ := updRow_fields f.tid h st x
        simp [factKey, h2, h3, h4]
      refine ⟨?_, ?_, ?_, hwf.pidsNodup, hwf.pidsLt, hwf.namesNodup⟩
      · rw [map_comp_of_ptwise htid]
        exact hwf.tidsNodup
      · intro f' hf'
        obtain ⟨g, hg, hGg⟩ := List.mem_map.mp hf'
        rw [← hGg, htid g]
        exact hwf.tidsLt g hg
      · rw [map_comp_of_ptwise hkey]
        exact hwf.keysNodup
  | none =>
      have hnostale : ∀ g ∈ db.timesheets, factKey g ≠ (vol, pid, d) := by
        intro g hg hkey
        have := List.find?_eq_none.mp hts g hg
        exact this (factKeyMatches_iff.mpr (by
          simpa [factKey, Prod.ext_iff] using hkey))
      refine ⟨?_, ?_, ?_, hwf.pidsNodup, hwf.pidsLt, hwf.namesNodup⟩
      · rw [List.map_append, List.nodup_append, List.map_cons, List.map_nil,
          List.disjoint_singleton]
        refine ⟨hwf.tidsNodup, by simp, ?_⟩
        show db.nextTimesheetId ∉ db.timesheets.map Fact.tid
        intro hmem
        obtain ⟨g, hg, hgt⟩ := List.mem_map.mp hmem
        have := hwf.tidsLt g hg
        omega
      · show ∀ f' ∈ db.timesheets ++
            [(⟨db.nextTimesheetId, vol, pid, d, h, st⟩ : Fact)],
          f'.tid < db.nextTimesheetId + 1
        intro f' hf'
        rcases List.mem_append.mp hf' with hold | hnew
        · have := hwf.tidsLt f' hold
          omega
        · rw [List.mem_singleton.mp hnew]
          show db.nextTimesheetId < db.nextTimesheetId + 1
          omega
      · rw [List.map_append, List.nodup_append, List.map_cons, List.map_nil,
          List.disjoint_singleton]
        refine ⟨hwf.keysNodup, by simp, ?_⟩
        show (vol, pid, d) ∉ db.timesheets.map factKey
        intro hmem
        obtain ⟨g, hg, hgk⟩ := List.mem_map.mp hmem
        exact hnostale g hg hgk

/-- Resolving (and possibly creating) a project preserves
well-formedness. -/
lemma WF_resolveProject {db : DB} (hwf : db.WF) (name : String) :
    (resolveProject db name).1.WF := by
  unfold resolveProject
  cases hfind : findProject db.projects name with
  | some p => exact hwf
  | none =>
      refine ⟨hwf.tidsNodup, hwf.tidsLt, hwf.keysNodup, ?_, ?_, ?_⟩
      · rw [List.map_append, List.nodup_append, List.map_cons, List.map_nil,
          List.disjoint_singleton]
        refine ⟨hwf.pidsNodup, by simp, ?_⟩
        show db.nextProjectId ∉ db.projects.map Project.pid
        intro hmem
        obtain ⟨r, hr, hrq⟩ := List.mem_map.mp hmem
        have := hwf.pidsLt r hr
        omega
      · show ∀ p ∈ db.projects ++ [(⟨db.nextProjectId, name⟩ : Project)],
          p.pid < db.nextProjectId + 1
        intro p hp
        rcases List.mem_append.mp hp with hold | hnew
        · have := hwf.pidsLt p hold
          omega
        · rw [List.mem_singleton.mp hnew]
          show db.nextProjectId < db.nextProjectId + 1
          omega
      · rw [List.map_append, List.nodup_append, List.map_cons, List.map_nil,
          List.disjoint_singleton]
        refine ⟨hwf.namesNodup, by simp, ?_⟩
        show name ∉ db.projects.map Project.name
        intro hmem
        obtain ⟨r, hr, hrs⟩ := List.mem_map.mp hmem
        exact findProject_none hfind r hr hrs

/-- One reconciler iteration preserves well-formedness. -/
lemma WF_saveStep {db : DB} (hwf : db.WF) (vol : Nat) (anchor : Int) (st : Status)
    (c : Cell) : (saveStep vol anchor st db c).WF :=
  WF_upsertFact (WF_resolveProject hwf c.project) vol _ _ _ st

/-- A whole save preserves well-formedness. -/
lemma WF_save (vol : Nat) (anchor : Int) (st : Status) :
    ∀ (cs : List Cell) {db : DB}, db.WF →
      (cs.foldl (saveStep vol anchor st) db).WF := by
  intro cs
  induction cs with
  | nil => intro db hwf; exact hwf
  | cons c cs ih =>
      intro db hwf
      rw [List.foldl_cons]
      exact ih (WF_saveStep hwf vol anchor st c)

/-! ## Shape of one reconciler iteration -/

/-- Upserting leaves the projects table and its id sequence alone. -/
lemma upsertFact_projects (db : DB) (vol pid : Nat) (d : Int) (h : ℚ) (st : Status) :
    (upsertFact db vol pid d h st).projects = db.projects ∧
    (upsertFact db vol pid d h st).nextProjectId = db.nextProjectId := by
  unfold upsertFact
  cases db.timesheets.find? (factKeyMatches vol pid d) <;> exact ⟨rfl, rfl⟩

/-- Resolving a project leaves the timesheets table and its id
sequence alone. -/
lemma resolveProject_timesheets (db : DB) (name : String) :
    (resolveProject db name).1.timesheets = db.timesheets ∧
    (resolveProject db name).1.nextTimesheetId = db.nextTimesheetId := by
  unfold resolveProject
  cases findProject db.projects name <;> exact ⟨rfl, rfl⟩

/-- One iteration only ever appends to the projects table. -/
lemma saveStep_projects (vol : Nat) (anchor : Int) (st : Status) (db : DB) (c : Cell) :
    ∃ ps', (saveStep vol anchor st db c).projects = db.projects ++ ps' := by
  unfold saveStep
  rw [(upsertFact_projects _ _ _ _ _ _).1]
  unfold resolveProject
  cases findProject db.projects c.project with
  | some p => exact ⟨[], by simp⟩
  | none => exact ⟨[⟨db.nextProjectId, c.project⟩], rfl⟩

/-- Name lookups that already succeed are stable under one iteration. -/
lemma findProject_saveStep {db : DB} {name : String} {p : Project}
    (h : findProject db.projects name = some p) (vol : Nat) (anchor : Int)
    (st : Status) (c : Cell) :
    findProject (saveStep vol anchor st db c).projects name = some p := by
  obtain ⟨ps', hps⟩ := saveStep_projects vol anchor st db c
  rw [hps]
  exact findProject_append_some h ps'

/-- Name lookups that already succeed are stable under a whole save. -/
lemma findProject_save (vol : Nat) (anchor : Int) (st : Status) :
    ∀ (cs : List Cell) {db : DB} {name : String} {p : Project},
      findProject db.projects name = some p →
      findProject (cs.foldl (saveStep vol anchor st) db).projects name = some p := by
  intro cs
  induction cs with
  | nil => intro db name p h; exact h
  | cons c cs ih =>
      intro db name p h
      rw [List.foldl_cons]
      exact ih (findProject_saveStep h vol anchor st c)

/-- One iteration reduced in the branch where the project exists. -/
lemma saveStep_eq_found {db : DB} {c : Cell} {p : Project}
    (hfind : findProject db.projects c.project = some p)
    (vol : Nat) (anchor : Int) (st : Status) :
    saveStep vol anchor st db c =
      upsertFact db vol p.pid (anchor + c.day) c.hours st := by
  unfold saveStep resolveProject
  rw [hfind]

/-- One iteration reduced in the branch where the project is created. -/
lemma saveStep_eq_new {db : DB} {c : Cell}
    (hfind : findProject db.projects c.project = none)
    (vol : Nat) (anchor : Int) (st : Status) :
    saveStep vol anchor st db c =
      upsertFact
        { db with
            projects := db.projects ++ [⟨db.nextProjectId, c.project⟩],
            nextProjectId := db.nextProjectId + 1 }
        vol db.nextProjectId (anchor + c.day) c.hours st := by
  unfold saveStep resolveProject
  rw [hfind]

/-- The upsert reduced in the UPDATE branch. -/
lemma upsertFact_eq_update {db : DB} {vol pid : Nat} {d : Int} {f : Fact}
    (hts : db.timesheets.find? (factKeyMatches vol pid d) = some f)
    (h : ℚ) (st : Status) :
    upsertFact db vol pid d h st =
      { db with timesheets :=
          db.timesheets.map (fun f' =>
            if f'.tid = f.tid then { f' with hours := h, status := st } else f') } := by
  unfold upsertFact
  rw [hts]

/-- The upsert reduced in the INSERT branch. -/
lemma upsertFact_eq_insert {db : DB} {vol pid : Nat} {d : Int}
    (hts : db.timesheets.find? (factKeyMatches vol pid d) = none)
    (h : ℚ) (st : Status) :
    upsertFact db vol pid d h st =
      { db with
          timesheets := db.timesheets ++ [⟨db.nextTimesheetId, vol, pid, d, h, st⟩],
          nextTimesheetId := db.nextTimesheetId + 1 } := by
  unfold upsertFact
  rw [hts]

/-- The UPDATE row transformer does not disturb the key predicate. -/
lemma updRow_pred (t : Nat) (h : ℚ) (st : Status) (vol pid : Nat) (d : Int) :
    ∀ x : Fact,
      factKeyMatches vol pid d
          ((if x.tid = t then { x with hours := h, status := st } else x) : Fact) =
        factKeyMatches vol pid d x := by
  intro x
  obtain ⟨-, h2, h3, h4⟩ := updRow_fields t h st x
  exact factKeyMatches_congr h2 h3 h4 vol pid d

/-- After an upsert, the upserted key holds a row with the written
hours and status. -/
lemma factAt_upsertFact (db : DB) (vol pid : Nat) (d : Int) (h : ℚ) (st : Status) :
    ∃ f, factAt (upsertFact db vol pid d h st) vol pid d = some f ∧
      f.hours = h ∧ f.status = st := by
  cases hts : db.timesheets.find? (factKeyMatches vol pid d) with
  | some f₀ =>
      rw [upsertFact_eq_update hts]
      have hfind2 := find?_map_pred (updRow_pred f₀.tid h st vol pid d) hts
      exact ⟨_, hfind2, by simp, by simp⟩
  | none =>
      rw [upsertFact_eq_insert hts]
      refine ⟨⟨db.nextTimesheetId, vol, pid, d, h, st⟩, ?_, rfl, rfl⟩
      show (db.timesheets ++ _).find? (factKeyMatches vol pid d) = _
      rw [List.find?_append, hts]
      simp [factKeyMatches]

/-- An upsert at one key leaves the row found at a different key of
the same volunteer untouched. -/
lemma upsert_frame {db : DB} (hwf : db.WF) {vol p2 : Nat} {d2 : Int} {f : Fact}
    (hf : factAt db vol p2 d2 = some f) {pid : Nat} {d : Int}
    (hne : ¬(pid = p2 ∧ d = d2)) (h : ℚ) (st : Status) :
    factAt (upsertFact db vol pid d h st) vol p2 d2 = some f := by
  cases hts : db.timesheets.find? (factKeyMatches vol pid d) with
  | some f₂ =>
      rw [upsertFact_eq_update hts]
      obtain ⟨hfmem, hfv, hfp, hfd⟩ := factAt_some hf
      obtain ⟨h2v, h2p, h2d⟩ := factKeyMatches_iff.mp (List.find?_some hts)
      have hf₂mem := List.mem_of_find?_eq_some hts
      have htid : ¬f.tid = f₂.tid := by
        intro he
        have hfe : f = f₂ := tid_inj hwf hfmem hf₂mem he
        exact hne ⟨by rw [← h2p, ← hfe, hfp], by rw [← h2d, ← hfe, hfd]⟩
      have hfind2 := find?_map_pred (updRow_pred f₂.tid h st vol p2 d2)
        (show db.timesheets.find? (factKeyMatches vol p2 d2) = some f from hf)
      show (db.timesheets.map _).find? (factKeyMatches vol p2 d2) = some f
      rw [hfind2, if_neg htid]
  | none =>
      rw [upsertFact_eq_insert hts]
      show (db.timesheets ++ _).find? (factKeyMatches vol p2 d2) = some f
      rw [List.find?_append,
        show db.timesheets.find? (factKeyMatches vol p2 d2) = some f from hf]
      rfl

/-- One iteration whose cell does not address the key `(name, d)`
leaves the project row and the fact at that key untouched. -/
lemma saveStep_frame {db : DB} (hwf : db.WF) {vol : Nat} {anchor : Int} {st : Status}
    {name : String} {p : Project} {f : Fact} {d : Int} (c : Cell)
    (hp : findProject db.projects name = some p)
    (hf : factAt db vol p.pid d = some f)
    (hcd : ¬(c.project = name ∧ anchor + (c.day : Int) = d)) :
    findProject (saveStep vol anchor st db c).projects name = some p ∧
    factAt (saveStep vol anchor st db c) vol p.pid d = some f := by
  refine ⟨findProject_saveStep hp vol anchor st c, ?_⟩
  cases hfind : findProject db.projects c.project with
  | some p' =>
      rw [saveStep_eq_found hfind]
      apply upsert_frame hwf hf ?_ c.hours st
      rintro ⟨hpe, hde⟩
      apply hcd
      have hp'el := findProject_some hfind
      have hpel := findProject_some hp
      have hpp : p' = p := pid_inj hwf hp'el.1 hpel.1 hpe
      exact ⟨by rw [← hp'el.2, hpp, hpel.2], hde⟩
  | none =>
      rw [saveStep_eq_new hfind]
      have hwf₂ : DB.WF { db with
          projects := db.projects ++ [⟨db.nextProjectId, c.project⟩],
          nextProjectId := db.nextProjectId + 1 } := by
        have hr := WF_resolveProject hwf c.project
        unfold resolveProject at hr
        rw [hfind] at hr
        exact hr
      apply upsert_frame hwf₂
        (show factAt _ vol p.pid d = some f from hf) ?_ c.hours st
      rintro ⟨hpe, -⟩
      have := hwf.pidsLt p (findProject_some hp).1
      omega

/-- A run of iterations none of whose cells address the key `(name, d)`
leaves the project row and the fact at that key untouched. -/
lemma save_frame (vol : Nat) (anchor : Int) (st : Status) :
    ∀ (cs : List Cell) {db : DB}, db.WF →
      ∀ {name : String} {p : Project} {f : Fact} {d : Int},
        findProject db.projects name = some p →
        factAt db vol p.pid d = some f →
        (∀ c ∈ cs, ¬(c.project = name ∧ anchor + (c.day : Int) = d)) →
        findProject (cs.foldl (saveStep vol anchor st) db).projects name = some p ∧
        factAt (cs.foldl (saveStep vol anchor st) db) vol p.pid d = some f := by
  intro cs
  induction cs with
  | nil => intro db _ name p f d hp hf _; exact ⟨hp, hf⟩
  | cons c r ih =>
      intro db hwf name p f d hp hf hcells
      rw [List.foldl_cons]
      obtain ⟨hp', hf'⟩ := saveStep_frame hwf c hp hf
        (hcells c (List.mem_cons_self c r))
      exact ih (WF_saveStep hwf vol anchor st c) hp' hf'
        (fun c' hc' => hcells c' (List.mem_cons_of_mem c hc'))

/-- The last element of a nonempty list is unchanged by consing. -/
lemma getLast?_cons_of_ne_nil {α : Type} {l : List α} (h : l ≠ []) (a : α) :
    (a :: l).getLast? = l.getLast? := by
  cases l with
  | nil => exact absurd rfl h
  | cons b m => exact List.getLast?_cons_cons

/-- One iteration establishes its own cell's key: the cell's project
name resolves, and the resolved key holds a row with the cell's hours
and the written status. -/
lemma saveStep_post (db : DB) (vol : Nat) (anchor : Int) (st : Status) (c : Cell) :
    ∃ p, findProject (saveStep vol anchor st db c).projects c.project = some p ∧
      p.name = c.project ∧
      ∃ f, factAt (saveStep vol anchor st db c) vol p.pid (anchor + c.day) = some f ∧
        f.hours = c.hours ∧ f.status = st := by
  cases hfind : findProject db.projects c.project with
  | some p =>
      rw [saveStep_eq_found hfind]
      refine ⟨p, ?_, (findProject_some hfind).2, ?_⟩
      · rw [(upsertFact_projects db vol p.pid (anchor + c.day) c.hours st).1]
        exact hfind
      · exact factAt_upsertFact db vol p.pid (anchor + c.day) c.hours st
  | none =>
      rw [saveStep_eq_new hfind]
      refine ⟨⟨db.nextProjectId, c.project⟩, ?_, rfl, ?_⟩
      · rw [(upsertFact_projects _ vol db.nextProjectId (anchor + c.day) c.hours st).1]
        show findProject (db.projects ++ [⟨db.nextProjectId, c.project⟩]) c.project = _
        rw [findProject_append_none hfind]
        simp [findProject]
      · exact factAt_upsertFact _ vol db.nextProjectId (anchor + c.day) c.hours st

/-- After a save, every project-and-day cell of the batch holds, at
its resolved key, a row whose hours are the batch's last write for
that cell (last-write-wins) and whose status is the written status. -/
lemma save_post (vol : Nat) (anchor : Int) (st : Status) :
    ∀ (cs : List Cell) {db : DB}, db.WF → ∀ {name : String} {d : Nat} {q : ℚ},
      lastCell cs name d = some q →
      ∃ p, findProject (cs.foldl (saveStep vol anchor st) db).projects name = some p ∧
        p.name = name ∧
        ∃ f, factAt (cs.foldl (saveStep vol anchor st) db) vol p.pid (anchor + d) = some f ∧
          f.hours = q ∧ f.status = st := by
  intro cs
  induction cs with
  | nil =>
      intro db hwf name d q hq
      exact absurd hq (by simp [lastCell])
  | cons c r ih =>
      intro db hwf name d q hq
      rw [List.foldl_cons]
      by_cases hr : r.filter (fun c' => c'.project == name && c'.day == d) = []
      · by_cases hpc : (c.project == name && c.day == d) = true
        · have hfilter : (c :: r).filter (fun c' => c'.project == name && c'.day == d) = [c] := by
            rw [List.filter_cons, if_pos hpc, hr]
          have hq' : q = c.hours := by
            unfold lastCell at hq
            rw [hfilter] at hq
            simp at hq
            exact hq.symm
          obtain ⟨hcp, hcd⟩ : c.project = name ∧ c.day = d := by simpa using hpc
          subst hcp
          subst hcd
          obtain ⟨p, hp, hpname, f, hf, hfh, hfs⟩ := saveStep_post db vol anchor st c
          have hcells : ∀ c' ∈ r,
              ¬(c'.project = c.project ∧ anchor + (c'.day : Int) = anchor + c.day) := by
            intro c' hc' ⟨he1, he2⟩
            have hday : c'.day = c.day := by omega
            have := List.filter_eq_nil_iff.mp hr c' hc'
            simp [he1, hday] at this
          obtain ⟨hpf, hff⟩ := save_frame vol anchor st r
            (WF_saveStep hwf vol anchor st c) hp hf hcells
          exact ⟨p, hpf, hpname, f, hff, by rw [hfh, hq'], hfs⟩
        · exact absurd hq (by
            unfold lastCell
            rw [List.filter_cons, if_neg hpc, hr]
            simp)
      · have hlast : lastCell r name d = some q := by
          unfold lastCell at hq ⊢
          rw [List.filter_cons] at hq
          by_cases hpc : (c.project == name && c.day == d) = true
          · rw [if_pos hpc, getLast?_cons_of_ne_nil hr] at hq
            exact hq
          · rw [if_neg hpc] at hq
            exact hq
        exact ih (WF_saveStep hwf vol anchor st c) hlast

/-- One iteration only touches its own cell's resolved key: every row
after the iteration is either an untouched old row or carries the
cell's data. -/
lemma saveStep_mem {db : DB} (hwf : db.WF) (vol : Nat) (anchor : Int) (st : Status)
    (c : Cell) {f' : Fact} (h : f' ∈ (saveStep vol anchor st db c).timesheets) :
    f' ∈ db.timesheets ∨
      (f'.volunteer = vol ∧ f'.date = anchor + c.day ∧ f'.hours = c.hours ∧
        f'.status = st ∧
        ∃ p, findProject (saveStep vol anchor st db c).projects c.project = some p ∧
          f'.project = p.pid ∧ p.name = c.project) := by
  obtain ⟨p, hp, hpname, -⟩ := saveStep_post db vol anchor st c
  cases hfind : findProject db.projects c.project with
  | some p₀ =>
      have hpe : p = p₀ := by
        have := findProject_saveStep hfind vol anchor st c
        rw [hp] at this
        exact Option.some_inj.mp this
      subst hpe
      rw [saveStep_eq_found hfind] at h
      cases hts : db.timesheets.find? (factKeyMatches vol p.pid (anchor + c.day)) with
      | some f₀ =>
          rw [upsertFact_eq_update hts] at h
          obtain ⟨g, hg, hGg⟩ := List.mem_map.mp h
          by_cases htid : g.tid = f₀.tid
          · have hge : g = f₀ := tid_inj hwf hg (List.mem_of_find?_eq_some hts) htid
            obtain ⟨h2v, h2p, h2d⟩ := factKeyMatches_iff.mp (List.find?_some hts)
            right
            refine ⟨?_, ?_, ?_, ?_, p, hp, ?_, hpname⟩ <;>
              rw [← hGg, if_pos htid, hge] <;> simp [h2v, h2p, h2d]
          · left
            rw [← hGg, if_neg htid]
            exact hg
      | none =>
          rw [upsertFact_eq_insert hts] at h
          rcases List.mem_append.mp h with hold | hnew
          · exact Or.inl hold
          · right
            rw [List.mem_singleton.mp hnew]
            exact ⟨rfl, rfl, rfl, rfl, p, hp, rfl, hpname⟩
  | none =>
      have hpe : p = ⟨db.nextProjectId, c.project⟩ := by
        have h2 : findProject (saveStep vol anchor st db c).projects c.project =
            some ⟨db.nextProjectId, c.project⟩ := by
          rw [saveStep_eq_new hfind,
            (upsertFact_projects _ vol db.nextProjectId (anchor + c.day) c.hours st).1]
          show findProject (db.projects ++ [⟨db.nextProjectId, c.project⟩]) c.project = _
          rw [findProject_append_none hfind]
          simp [findProject]
        rw [hp] at h2
        exact Option.some_inj.mp h2
      rw [saveStep_eq_new hfind] at h
      cases hts : db.timesheets.find?
          (factKeyMatches vol db.nextProjectId (anchor + c.day)) with
      | some f₀ =>
          rw [upsertFact_eq_update (show ({ db with
              projects := db.projects ++ [⟨db.nextProjectId, c.project⟩],
              nextProjectId := db.nextProjectId + 1 } : DB).timesheets.find?
                (factKeyMatches vol db.nextProjectId (anchor + c.day)) = some f₀
              from hts) c.hours st] at h
          obtain ⟨g, hg, hGg⟩ := List.mem_map.mp h
          by_cases htid : g.tid = f₀.tid
          · have hge : g = f₀ := tid_inj hwf hg (List.mem_of_find?_eq_some hts) htid
            obtain ⟨h2v, h2p, h2d⟩ := factKeyMatches_iff.mp (List.find?_some hts)
            right
            refine ⟨?_, ?_, ?_, ?_, p, hp, ?_, hpname⟩ <;>
              rw [← hGg, if_pos htid, hge] <;> simp [h2v, h2p, h2d, hpe]
          · left
            rw [← hGg, if_neg htid]
            exact hg
      | none =>
          rw [upsertFact_eq_insert (show ({ db with
              projects := db.projects ++ [⟨db.nextProjectId, c.project⟩],
              nextProjectId := db.nextProjectId + 1 } : DB).timesheets.find?
                (factKeyMatches vol db.nextProjectId (anchor + c.day)) = none
              from hts) c.hours st] at h
          rcases List.mem_append.mp h with hold | hnew
          · exact Or.inl hold
          · right
            rw [List.mem_singleton.mp hnew]
            exact ⟨rfl, rfl, rfl, rfl, p, hp, by rw [hpe], hpname⟩

/-- After a save, every row is either an untouched old row or the
image of one batch cell: its volunteer, date, hours and status come
from that cell and the save, and its project id resolves to the
cell's project name. -/
lemma save_mem (vol : Nat) (anchor : Int) (st : Status) :
    ∀ (cs : List Cell) {db : DB}, db.WF → ∀ {f' : Fact},
      f' ∈ (cs.foldl (saveStep vol anchor st) db).timesheets →
      f' ∈ db.timesheets ∨
        ∃ c ∈ cs, f'.volunteer = vol ∧ f'.date = anchor + c.day ∧
          f'.hours = c.hours ∧ f'.status = st ∧
          ∃ p, findProject (cs.foldl (saveStep vol anchor st) db).projects c.project
              = some p ∧ f'.project = p.pid ∧ p.name = c.project := by
  intro cs
  induction cs with
  | nil => intro db _ f' h; exact Or.inl h
  | cons c r ih =>
      intro db hwf f' h
      rw [List.foldl_cons] at h ⊢
      rcases ih (WF_saveStep hwf vol anchor st c) h with hstep | ⟨c', hc', h1, h2, h3, h4, p, hp, h5, h6⟩
      · rcases saveStep_mem hwf vol anchor st c hstep with hold | ⟨h1, h2, h3, h4, p, hp, h5, h6⟩
        · exact Or.inl hold
        · exact Or.inr ⟨c, List.mem_cons_self c r, h1, h2, h3, h4, p,
            findProject_save vol anchor st r hp, h5, h6⟩
      · exact Or.inr ⟨c', List.mem_cons_of_mem c hc', h1, h2, h3, h4, p, hp, h5, h6⟩

/-! ## Replay: saving the same batch over its own result -/

/-- Two facts agreeing on every field are equal. -/
lemma fact_eq {f g : Fact} (h1 : f.tid = g.tid) (h2 : f.volunteer = g.volunteer)
    (h3 : f.project = g.project) (h4 : f.date = g.date) (h5 : f.hours = g.hours)
    (h6 : f.status = g.status) : f = g := by
  cases f
  cases g
  simp only [Fact.mk.injEq]
  exact ⟨h1, h2, h3, h4, h5, h6⟩

/-- With no cells left, the replay invariant forces equality. -/
lemma forall2_relExcept_nil {vol : Nat} {anchor : Int} {D : DB} :
    ∀ {l₁ l₂ : List Fact},
      List.Forall₂ (relExcept vol anchor D []) l₁ l₂ → l₁ = l₂ := by
  intro l₁ l₂ h
  induction h with
  | nil => rfl
  | cons hab h ih =>
      obtain ⟨h1, h2, h3, h4, hval⟩ := hab
      rcases hval with ⟨h5, h6⟩ | ⟨c, hc, -⟩
      · rw [ih, fact_eq h1 h2 h3 h4 h5 h6]
      · exact absurd hc (List.not_mem_nil c)

/-- A componentwise-invariant projection is equal along `Forall₂`. -/
lemma forall2_map_eq {α : Type} {r : Fact → Fact → Prop} {φ : Fact → α}
    (hφ : ∀ a b, r a b → φ a = φ b) :
    ∀ {l₁ l₂ : List Fact}, List.Forall₂ r l₁ l₂ → l₁.map φ = l₂.map φ := by
  intro l₁ l₂ h
  induction h with
  | nil => rfl
  | cons hab h ih => rw [List.map_cons, List.map_cons, hφ _ _ hab, ih]

/-- `find?` for a relation-invariant predicate aligns along `Forall₂`. -/
lemma forall2_find?_rel {r : Fact → Fact → Prop} {p : Fact → Bool}
    (hpr : ∀ a b, r a b → p a = p b) :
    ∀ {l₁ l₂ : List Fact}, List.Forall₂ r l₁ l₂ →
      (l₁.find? p = none ∧ l₂.find? p = none) ∨
      ∃ a b, l₁.find? p = some a ∧ l₂.find? p = some b ∧ r a b := by
  intro l₁ l₂ h
  induction h with
  | nil => exact Or.inl ⟨rfl, rfl⟩
  | @cons a b la lb hab h ih =>
      by_cases hpa : p a = true
      · exact Or.inr ⟨a, b, List.find?_cons_of_pos la hpa,
          List.find?_cons_of_pos lb (by rw [← hpr a b hab]; exact hpa), hab⟩
      · rcases ih with ⟨hn1, hn2⟩ | ⟨x, y, hx, hy, hxy⟩
        · refine Or.inl ⟨?_, ?_⟩
          · rw [List.find?_cons_of_neg la hpa]; exact hn1
          · rw [List.find?_cons_of_neg lb (by rw [← hpr a b hab]; exact hpa)]; exact hn2
        · refine Or.inr ⟨x, y, ?_, ?_, hxy⟩
          · rw [List.find?_cons_of_neg la hpa]; exact hx
          · rw [List.find?_cons_of_neg lb (by rw [← hpr a b hab]; exact hpa)]; exact hy

/-- Mapping the left side of a `Forall₂`, with memberships available. -/
lemma forall2_map_left {r r' : Fact → Fact → Prop} {G : Fact → Fact} :
    ∀ {l₁ l₂ : List Fact}, List.Forall₂ r l₁ l₂ →
      (∀ a b, a ∈ l₁ → b ∈ l₂ → r a b → r' (G a) b) →
      List.Forall₂ r' (l₁.map G) l₂ := by
  intro l₁ l₂ h
  induction h with
  | nil => intro _; exact List.Forall₂.nil
  | @cons a b la lb hab h ih =>
      intro himp
      exact List.Forall₂.cons
        (himp a b (List.mem_cons_self a la) (List.mem_cons_self b lb) hab)
        (ih (fun x y hx hy hr =>
          himp x y (List.mem_cons_of_mem a hx) (List.mem_cons_of_mem b hy) hr))

/-- Replaying a batch over a database `D` that already stores the
batch's last writes reproduces `D` exactly. -/
lemma replayAux (vol : Nat) (anchor : Int) (st : Status) (D : DB) (hD : D.WF) :
    ∀ (cs : List Cell) (S : DB),
      S.projects = D.projects → S.nextProjectId = D.nextProjectId →
      S.nextTimesheetId = D.nextTimesheetId →
      List.Forall₂ (relExcept vol anchor D cs) S.timesheets D.timesheets →
      (∀ (name : String) (d : Nat) (q : ℚ), lastCell cs name d = some q →
        ∃ p, findProject D.projects name = some p ∧
          ∃ f, factAt D vol p.pid (anchor + d) = some f ∧ f.hours = q ∧ f.status = st) →
      cs.foldl (saveStep vol anchor st) S = D := by
  intro cs
  induction cs with
  | nil =>
      intro S h1 h2 h3 hF _
      have hts : S.timesheets = D.timesheets := forall2_relExcept_nil hF
      have : S = D := by
        cases S
        cases D
        simp only [DB.mk.injEq]
        exact ⟨h1, hts, h2, h3⟩
      simpa using this
  | cons c r ih =>
      intro S h1 h2 h3 hF HD
      have hcfilter : ((c :: r).filter (fun c' => c'.project == c.project && c'.day == c.day))
          = c :: (r.filter (fun c' => c'.project == c.project && c'.day == c.day)) := by
        rw [List.filter_cons, if_pos (by simp)]
      have hne : ((c :: r).filter (fun c' => c'.project == c.project && c'.day == c.day)) ≠ [] := by
        rw [hcfilter]
        exact List.cons_ne_nil _ _
      obtain ⟨clast, hclast⟩ : ∃ x,
          ((c :: r).filter (fun c' => c'.project == c.project && c'.day == c.day)).getLast?
            = some x := by
        cases hgl : ((c :: r).filter
            (fun c' => c'.project == c.project && c'.day == c.day)).getLast? with
        | none =>
            have := List.getLast?_isSome.mpr hne
            rw [hgl] at this
            simp at this
        | some x => exact ⟨x, rfl⟩
      have hlastc : lastCell (c :: r) c.project c.day = some clast.hours := by
        unfold lastCell
        rw [hclast]
        rfl
      obtain ⟨p, hpD, fD, hfD, hfDh, hfDs⟩ := HD c.project c.day clast.hours hlastc
      have hresS : resolveProject S c.project = (S, p.pid) := by
        unfold resolveProject
        rw [h1, hpD]
      have hkeymap : ∀ a b, relExcept vol anchor D (c :: r) a b →
          factKeyMatches vol p.pid (anchor + c.day) a
            = factKeyMatches vol p.pid (anchor + c.day) b :=
        fun a b hr => factKeyMatches_congr hr.2.1 hr.2.2.1 hr.2.2.2.1 _ _ _
      rcases forall2_find?_rel hkeymap hF with ⟨-, hn2⟩ | ⟨fS, fD', hfS, hfD', hrel⟩
      · unfold factAt at hfD
        rw [hn2] at hfD
        exact Option.noConfusion hfD
      have hfDe : fD' = fD := by
        unfold factAt at hfD
        rw [hfD'] at hfD
        exact Option.some_inj.mp hfD
      subst hfDe
      have hstep : saveStep vol anchor st S c =
          { S with timesheets := S.timesheets.map (fun f' =>
              if f'.tid = fS.tid then { f' with hours := c.hours, status := st } else f') } := by
        unfold saveStep
        rw [hresS]
        exact upsertFact_eq_update
          (show S.timesheets.find? _ = some fS from hfS) c.hours st
      rw [List.foldl_cons, hstep]
      apply ih
      · exact h1
      · exact h2
      · exact h3
      · apply forall2_map_left hF
        intro a b ha hb hab
        obtain ⟨ht, hv, hpr, hd, hval⟩ := hab
        obtain ⟨hbmem, hbv, hbp, hbd⟩ := factAt_some hfD
        by_cases htid : a.tid = fS.tid
        · have hbfd : b = fD' := by
            have hbt : b.tid = fD'.tid := by rw [← ht, htid, hrel.1]
            exact tid_inj hD hb hbmem hbt
          obtain ⟨hu1, hu2, hu3, hu4⟩ := updRow_fields fS.tid c.hours st a
          refine ⟨by rw [hu1, ht], by rw [hu2, hv], by rw [hu3, hpr], by rw [hu4, hd], ?_⟩
          by_cases hrr : r.filter (fun c' => c'.project == c.project && c'.day == c.day) = []
          · left
            have hclaste : clast = c := by
              rw [List.filter_cons, if_pos (by simp), hrr] at hclast
              simpa using hclast.symm
            constructor
            · show ((if a.tid = fS.tid then
                  ({ a with hours := c.hours, status := st } : Fact) else a) : Fact).hours
                    = b.hours
              rw [if_pos htid]
              show c.hours = b.hours
              rw [hbfd, hfDh, hclaste]
            · show ((if a.tid = fS.tid then
                  ({ a with hours := c.hours, status := st } : Fact) else a) : Fact).status
                    = b.status
              rw [if_pos htid]
              show st = b.status
              rw [hbfd, hfDs]
          · right
            obtain ⟨c', hc'mem⟩ := List.exists_mem_of_ne_nil _ hrr
            have hc'r := (List.mem_filter.mp hc'mem).1
            obtain ⟨hc'p, hc'd⟩ : c'.project = c.project ∧ c'.day = c.day := by
              have := (List.mem_filter.mp hc'mem).2
              simpa using this
            refine ⟨c', hc'r, p, by rw [hc'p]; exact hpD, ?_, ?_, ?_⟩
            · rw [hbfd, hbp]
            · rw [hbfd, hbd, hc'd]
            · rw [hbfd, hbv]
        · rw [if_neg htid]
          refine ⟨ht, hv, hpr, hd, ?_⟩
          rcases hval with heq | ⟨c', hc', hhit⟩
          · exact Or.inl heq
          · rcases List.mem_cons.mp hc' with hceq | hc'r
            · exfalso
              obtain ⟨p₁, hp₁, hb1, hb2, hb3⟩ := hhit
              rw [hceq] at hp₁ hb2
              have hp₁e : p₁ = p := by
                rw [hpD] at hp₁
                exact (Option.some_inj.mp hp₁).symm
              obtain ⟨hbmem', hbv', hbp', hbd'⟩ := factAt_some hfD
              have hbfd : b = fD' := key_inj hD hb hbmem' (by
                simp [factKey, hb1, hp₁e, hb2, hb3, hbv', hbp', hbd'])
              apply htid
              rw [ht, hbfd, ← hrel.1]
            · exact Or.inr ⟨c', hc'r, hhit⟩
      · intro name d q hq
        apply HD name d q
        unfold lastCell at hq ⊢
        rw [List.filter_cons]
        by_cases hpc : (c.project == name && c.day == d) = true
        · have hrne : r.filter (fun c' => c'.project == name && c'.day == d) ≠ [] := by
            intro hnil
            rw [hnil] at hq
            simp at hq
          rw [if_pos hpc, getLast?_cons_of_ne_nil hrne]
          exact hq
        · rw [if_neg hpc]
          exact hq

/-! ## C1: approval monotonicity -/

/-- C1 counterexample: the claim says no in-scope operation ever sets
an Approved fact back to Pending or Saved, but re-saving the same
week grid (project "P", 2 hours in the anchor-day column) through
`save_to_database` with status "Saved" overwrites the Approved fact's
status with Saved (app.py line 1073 updates `status` unconditionally). -/
theorem approved_fact_reverted_by_resave :
    dbC1.timesheets.map Fact.status = [Status.Approved] ∧
    (save_to_database dbC1 1 10 [⟨"P", [2, 0, 0, 0, 0, 0, 0]⟩] .Saved).timesheets =
      [⟨1, 1, 1, 10, 2, .Saved⟩] := by
  constructor
  · rfl
  · rfl

/-- C1 amended: `approve_timesheet` never writes any status other than
Approved, so admin actions never revert an Approved fact; but
`save_to_database` stamps every row it writes with its own status
argument (Saved or Pending), so a volunteer save whose grid has a
positive cell at an Approved fact's (project, date) reverts that
fact — approval is not monotonic under volunteer saves. -/
theorem approval_monotonic_only_for_admin_actions :
    (∀ (db : DB) (tid : Nat) (f' : Fact),
        f' ∈ (approve_timesheet db tid).1.timesheets →
        f' ∈ db.timesheets ∨ f'.status = Status.Approved) ∧
    (∀ (db : DB) (vol : Nat) (anchor : Int) (g : List Slot) (st : Status) (f' : Fact),
        f' ∈ (save_to_database db vol anchor g st).timesheets →
        f' ∈ db.timesheets ∨ f'.status = st) := by
  constructor
  · intro db tid f' hmem
    simp only [approve_timesheet, List.mem_map] at hmem
    obtain ⟨g, hg, heq⟩ := hmem
    by_cases htid : g.tid = tid
    · right; rw [← heq, if_pos htid]
    · left; rw [← heq, if_neg htid]; exact hg
  · intro db vol anchor g st f' hmem
    exact mem_save_status hmem

/-- Witness for the C1 amended theorem: applying it to the concrete
save of `approved_fact_reverted_by_resave` yields the disjunction at
the single written row. -/
theorem approval_monotonic_only_for_admin_actions_witness :
    (⟨1, 1, 1, 10, 2, .Saved⟩ : Fact) ∈ dbC1.timesheets ∨
    (⟨1, 1, 1, 10, 2, .Saved⟩ : Fact).status = Status.Saved :=
  approval_monotonic_only_for_admin_actions.2 dbC1 1 10
    [⟨"P", [2, 0, 0, 0, 0, 0, 0]⟩] .Saved ⟨1, 1, 1, 10, 2, .Saved⟩ (by decide)

/-! ## C2: which statistics are Approved-only -/

/-- Restricting to Approved rows does not change the row set feeding
the Approved-filtered statistics queries. -/
lemma approved_vol_facts_approvedOnly (db : DB) (vol : Nat) :
    approved_vol_facts (approvedOnly db) vol = approved_vol_facts db vol := by
  simp only [approved_vol_facts, approvedOnly, List.filter_filter]
  apply List.filter_congr
  intro f _
  cases hst : f.status == Status.Approved <;> simp [hst]

/-- The joined Approved rows are likewise unchanged. -/
lemma approved_entries_approvedOnly (db : DB) (vol : Nat) :
    approved_entries (approvedOnly db) vol = approved_entries db vol := by
  unfold approved_entries
  rw [approved_vol_facts_approvedOnly]
  rfl

/-- C2 amended: of the aggregator's statistics, total hours, most
active project, weekly totals and per-project totals are computed only
from Approved facts (restricting the database to Approved rows leaves
them unchanged); the weeks-active count and the daily totals (and
hence the denominator of average weekly hours) are taken from all of
the volunteer's facts regardless of status (app.py lines 1133 and
1149 have no status filter). -/
theorem approved_filter_covers_four_statistics :
    ∀ (db : DB) (vol : Nat),
      total_hours (approvedOnly db) vol = total_hours db vol ∧
      most_active_project (approvedOnly db) vol = most_active_project db vol ∧
      weekly_totals (approvedOnly db) vol = weekly_totals db vol ∧
      project_totals (approvedOnly db) vol = project_totals db vol := by
  intro db vol
  have h1 : total_hours (approvedOnly db) vol = total_hours db vol := by
    unfold total_hours
    rw [approved_vol_facts_approvedOnly]
  have h4 : project_totals (approvedOnly db) vol = project_totals db vol := by
    unfold project_totals
    rw [approved_entries_approvedOnly]
  have h2 : most_active_project (approvedOnly db) vol = most_active_project db vol := by
    unfold most_active_project
    rw [h4]
  have h3 : weekly_totals (approvedOnly db) vol = weekly_totals db vol := by
    unfold weekly_totals
    rw [approved_vol_facts_approvedOnly]
  exact ⟨h1, h2, h3, h4⟩

/-- C2 counterexample: the claim says facts with status Saved or
Pending contribute to none of the statistics, but with only a Pending
and a Saved fact on file the daily-totals query returns their rows
and the weeks-active count is 2 instead of 1 — both differ from the
same statistics computed on the Approved-only restriction. -/
theorem pending_facts_reach_daily_and_weeks_statistics :
    daily_totals dbC2 1 ≠ daily_totals (approvedOnly dbC2) 1 ∧
    num_weeks dbC2 1 ≠ num_weeks (approvedOnly dbC2) 1 := by
  constructor
  · decide
  · decide

/-! ## C3: the week window anchor -/

/-- C3 (code slip): the week anchor is always a Monday, never a
Sunday.  `current_week` is seeded as
`datetime.now() - timedelta(days=datetime.now().weekday())`
(app.py line 218) and Python's `weekday()` maps Monday to 0, so the
anchor's weekday is 0 (Monday), although `get_week_dates`'s own
docstring promises "Sunday to Saturday".  At the concrete input
739042 (2024-06-05, a Wednesday) the displayed window is
2024-06-03 (Monday) through 2024-06-09 (Sunday); a Sunday-aligned
window would start at 739039 (2024-06-02, weekday 6). -/
theorem week_anchor_is_monday_not_sunday :
    (∀ t : Int, weekday (current_week_of t) = 0) ∧
    get_week_dates (current_week_of 739042) =
      [739040, 739041, 739042, 739043, 739044, 739045, 739046] ∧
    weekday 739040 = 0 ∧ weekday 739039 = 6 := by
  refine ⟨fun t => ?_, by decide, by decide, by decide⟩
  unfold current_week_of weekday
  omega

/-! ## C8: atomicity of the save transaction -/

/-- With no failing write, one fallible loop iteration succeeds and
computes exactly the pure iteration. -/
lemma saveStepExc_none_ok (vol : Nat) (anchor : Int) (st : Status) (db : DB)
    (n : Nat) (c : Cell) :
    ∃ n', saveStepExc vol anchor st none (db, n) c =
      .ok (saveStep vol anchor st db c, n') := by
  cases hfind : findProject db.projects c.project with
  | some p =>
      exact ⟨n + 1, by simp [saveStepExc, hfind, tryWrite, saveStep, resolveProject]⟩
  | none =>
      exact ⟨n + 2, by simp [saveStepExc, hfind, tryWrite, saveStep, resolveProject]⟩

/-- A successful fallible iteration computes the pure iteration. -/
lemma saveStepExc_ok (vol : Nat) (anchor : Int) (st : Status) (failAt : Option Nat)
    (db : DB) (n : Nat) (c : Cell) (db' : DB) (n' : Nat)
    (h : saveStepExc vol anchor st failAt (db, n) c = .ok (db', n')) :
    db' = saveStep vol anchor st db c := by
  cases hfind : findProject db.projects c.project with
  | some p =>
      by_cases hf : failAt = some n
      · simp [saveStepExc, hfind, tryWrite, hf] at h
      · simp [saveStepExc, hfind, tryWrite, hf] at h
        rw [← h.1]
        simp [saveStep, resolveProject, hfind]
  | none =>
      by_cases hf : failAt = some n
      · simp [saveStepExc, hfind, tryWrite, hf] at h
      · by_cases hf2 : failAt = some (n + 1)
        · simp [saveStepExc, hfind, tryWrite, hf, hf2] at h
        · simp [saveStepExc, hfind, tryWrite, hf, hf2] at h
          rw [← h.1]
          simp [saveStep, resolveProject, hfind]

/-- The fallible batch either fails outright or computes the pure fold. -/
lemma foldlM_saveStepExc (vol : Nat) (anchor : Int) (st : Status)
    (failAt : Option Nat) :
    ∀ (cs : List Cell) (db : DB) (n : Nat),
      (∃ n', cs.foldlM (saveStepExc vol anchor st failAt) (db, n) =
        .ok (cs.foldl (saveStep vol anchor st) db, n')) ∨
      cs.foldlM (saveStepExc vol anchor st failAt) (db, n) = .error () := by
  intro cs
  induction cs with
  | nil => intro db n; exact Or.inl ⟨n, rfl⟩
  | cons c cs ih =>
      intro db n
      rw [List.foldlM_cons]
      cases hstep : saveStepExc vol anchor st failAt (db, n) c with
      | ok res =>
          have hdb : res.1 = saveStep vol anchor st db c :=
            saveStepExc_ok vol anchor st failAt db n c res.1 res.2 (by
              rw [hstep])
          rcases ih res.1 res.2 with ⟨n', hok⟩ | herr
          · left
            refine ⟨n', ?_⟩
            show List.foldlM (saveStepExc vol anchor st failAt) res cs = _
            have hres : res = (res.1, res.2) := rfl
            rw [hres, hok, List.foldl_cons, hdb]
          · right
            show List.foldlM (saveStepExc vol anchor st failAt) res cs = _
            have hres : res = (res.1, res.2) := rfl
            rw [hres]
            exact herr
      | error e =>
          right
          cases e
          rfl

/-- With no failing write, the fallible batch succeeds and computes
the pure fold. -/
lemma foldlM_saveStepExc_none (vol : Nat) (anchor : Int) (st : Status) :
    ∀ (cs : List Cell) (db : DB) (n : Nat),
      ∃ n', cs.foldlM (saveStepExc vol anchor st none) (db, n) =
        .ok (cs.foldl (saveStep vol anchor st) db, n') := by
  intro cs
  induction cs with
  | nil => intro db n; exact ⟨n, rfl⟩
  | cons c cs ih =>
      intro db n
      rw [List.foldlM_cons]
      obtain ⟨n₁, hstep⟩ := saveStepExc_none_ok vol anchor st db n c
      obtain ⟨n', hrest⟩ := ih (saveStep vol anchor st db c) n₁
      refine ⟨n', ?_⟩
      rw [hstep]
      show List.foldlM (saveStepExc vol anchor st none) (saveStep vol anchor st db c, n₁) cs = _
      rw [hrest, List.foldl_cons]

/-- C8: each invocation of `save_to_database` is atomic.  For every
failure oracle, the invocation either persists and commits all
candidate facts together (returning the pure reconciliation result
and success) or reports an error with the persisted state exactly as
before the invocation; and when no write fails, the former happens. -/
theorem save_to_database_is_atomic :
    ∀ (db : DB) (vol : Nat) (anchor : Int) (g : List Slot) (st : Status)
      (failAt : Option Nat),
      (save_to_database_exc db vol anchor g st failAt =
          (save_to_database db vol anchor g st, true) ∨
        save_to_database_exc db vol anchor g st failAt = (db, false)) ∧
      save_to_database_exc db vol anchor g st none =
        (save_to_database db vol anchor g st, true) := by
  intro db vol anchor g st failAt
  constructor
  · unfold save_to_database_exc save_to_database
    rcases foldlM_saveStepExc vol anchor st failAt (meltFilter g) db 0 with
      ⟨n', hok⟩ | herr
    · left; rw [hok]
    · right; rw [herr]
  · unfold save_to_database_exc save_to_database
    obtain ⟨n', hok⟩ := foldlM_saveStepExc_none vol anchor st (meltFilter g) db 0
    rw [hok]

/-! ## C9: deleting a referenced project -/

/-- C9: deleting a project that is referenced by at least one
timesheet fact fails with the cannot-delete message and leaves the
database (both the project row and every referencing fact) unchanged. -/
theorem delete_referenced_project_fails (db : DB) (name : String)
    (f : Fact) (hf : f ∈ db.timesheets) (p : Project) (hp : p ∈ db.projects)
    (hpid : p.pid = f.project) (hname : p.name = name) :
    delete_project db name =
      (db, false, "Cannot delete project that has hours logged against it.") := by
  unfold delete_project
  have hmem : p ∈ db.timesheets.flatMap (fun f =>
      db.projects.filter (fun p => p.pid == f.project && p.name == name)) := by
    refine List.mem_flatMap.mpr ⟨f, hf, List.mem_filter.mpr ⟨hp, ?_⟩⟩
    simp [hpid, hname]
  have hlen : 0 < (db.timesheets.flatMap (fun f =>
      db.projects.filter (fun p => p.pid == f.project && p.name == name))).length :=
    List.length_pos.mpr (List.ne_nil_of_mem hmem)
  rw [if_pos hlen]

/-- Witness for C9 at a concrete state: one project "Food Bank" with
one logged fact. -/
theorem delete_referenced_project_fails_witness :
    delete_project ⟨[⟨1, "Food Bank"⟩], [⟨1, 1, 1, 10, 2, .Approved⟩], 2, 2⟩ "Food Bank" =
      (⟨[⟨1, "Food Bank"⟩], [⟨1, 1, 1, 10, 2, .Approved⟩], 2, 2⟩, false,
        "Cannot delete project that has hours logged against it.") :=
  delete_referenced_project_fails _ "Food Bank"
    ⟨1, 1, 1, 10, 2, .Approved⟩ (by decide) ⟨1, "Food Bank"⟩ (by decide) rfl rfl

/-! ## C10: approving a missing timesheet id -/

/-- Mapping the approval update over rows none of which carry the
target id changes nothing. -/
lemma map_approve_id_miss (l : List Fact) (tid : Nat)
    (h : ∀ f ∈ l, f.tid ≠ tid) :
    l.map (fun f => if f.tid = tid then { f with status := Status.Approved } else f) = l := by
  induction l with
  | nil => rfl
  | cons a l ih =>
      rw [List.map_cons, if_neg (h a (List.mem_cons_self a l)),
        ih (fun f hf => h f (List.mem_cons_of_mem a hf))]

/-- C10: approving a timesheet id with no matching row still reports
success: the UPDATE matches zero rows, the commit succeeds, the state
is unchanged, and the caller gets
`(True, "Timesheet approved successfully.")`. -/
theorem approve_missing_id_reports_success (db : DB) (tid : Nat)
    (h : ∀ f ∈ db.timesheets, f.tid ≠ tid) :
    approve_timesheet db tid = (db, true, "Timesheet approved successfully.") := by
  unfold approve_timesheet
  rw [map_approve_id_miss db.timesheets tid h]

/-- Witness for C10: approving id 2 in a state whose only timesheet
row has id 1. -/
theorem approve_missing_id_reports_success_witness :
    approve_timesheet ⟨[⟨1, "P"⟩], [⟨1, 1, 1, 10, 2, .Pending⟩], 2, 2⟩ 2 =
      (⟨[⟨1, "P"⟩], [⟨1, 1, 1, 10, 2, .Pending⟩], 2, 2⟩, true,
        "Timesheet approved successfully.") :=
  approve_missing_id_reports_success _ 2 (by decide)

/-! ## C4: idempotence of the reconciler -/

/-- A fresh schema is well-formed. -/
lemma emptyDB_WF : DB.WF emptyDB := by
  constructor <;> simp [emptyDB]

/-- C4: saving the same grid twice in a row with identical values and
the same status is idempotent — the second save reproduces the
database of the first save exactly, so every persisted fact's stored
hours (and status) are unchanged and no row is added or removed.  The
hypothesis `db.WF` states what the schema's SERIAL primary keys and
UNIQUE name constraint enforce, plus the data model's one-fact-per-key
invariant. -/
theorem save_to_database_idempotent (db : DB) (vol : Nat) (anchor : Int)
    (g : List Slot) (st : Status) (hwf : db.WF) :
    save_to_database (save_to_database db vol anchor g st) vol anchor g st =
      save_to_database db vol anchor g st := by
  unfold save_to_database
  refine replayAux vol anchor st ((meltFilter g).foldl (saveStep vol anchor st) db)
    (WF_save vol anchor st (meltFilter g) hwf) (meltFilter g) _ rfl rfl rfl ?_ ?_
  · exact List.forall₂_same.mpr
      (fun f _ => ⟨rfl, rfl, rfl, rfl, Or.inl ⟨rfl, rfl⟩⟩)
  · intro name d q hq
    obtain ⟨p, hp, -, f, hf, hfh, hfs⟩ :=
      save_post vol anchor st (meltFilter g) hwf hq
    exact ⟨p, hp, f, hf, hfh, hfs⟩

/-- Witness for C4: a fresh database and a grid exercising the
duplicate-slot path (project "A" appears in two slots of the same
day). -/
theorem save_to_database_idempotent_witness :
    DB.WF emptyDB ∧
    save_to_database
        (save_to_database emptyDB 1 0
          [⟨"A", [1, 0, 0, 0, 0, 0, 0]⟩, ⟨"A", [2, 0, 0, 0, 0, 0, 0]⟩] .Pending)
        1 0 [⟨"A", [1, 0, 0, 0, 0, 0, 0]⟩, ⟨"A", [2, 0, 0, 0, 0, 0, 0]⟩] .Pending =
      save_to_database emptyDB 1 0
        [⟨"A", [1, 0, 0, 0, 0, 0, 0]⟩, ⟨"A", [2, 0, 0, 0, 0, 0, 0]⟩] .Pending :=
  ⟨emptyDB_WF, save_to_database_idempotent emptyDB 1 0
    [⟨"A", [1, 0, 0, 0, 0, 0, 0]⟩, ⟨"A", [2, 0, 0, 0, 0, 0, 0]⟩] .Pending emptyDB_WF⟩

/-! ## The melted batch, cell by cell -/

/-- Membership in the melted and filtered batch. -/
lemma mem_meltFilter {g : List Slot} {c : Cell} :
    c ∈ meltFilter g ↔
      c.day < 7 ∧ 0 < c.hours ∧ c.project ≠ "" ∧
        ∃ s ∈ g, s.project = c.project ∧ s.hours.getD c.day 0 = c.hours := by
  unfold meltFilter
  rw [List.mem_flatMap]
  constructor
  · rintro ⟨d, hd, hc⟩
    rw [List.mem_filterMap] at hc
    obtain ⟨s, hs, hsc⟩ := hc
    by_cases hcond : 0 < s.hours.getD d 0 ∧ s.project ≠ ""
    · rw [if_pos hcond] at hsc
      have hc' := Option.some_inj.mp hsc
      subst hc'
      exact ⟨List.mem_range.mp hd, hcond.1, hcond.2, s, hs, rfl, rfl⟩
    · rw [if_neg hcond] at hsc
      cases hsc
  · rintro ⟨hday, hh, hne, s, hs, hsp, hsh⟩
    refine ⟨c.day, List.mem_range.mpr hday, ?_⟩
    rw [List.mem_filterMap]
    refine ⟨s, hs, ?_⟩
    rw [if_pos ⟨by rw [hsh]; exact hh, by rw [hsp]; exact hne⟩, hsp, hsh]

/-- `filter` distributes over `flatMap`. -/
lemma filter_flatMap {α β : Type} (l : List α) (f : α → List β) (p : β → Bool) :
    (l.flatMap f).filter p = l.flatMap (fun x => (f x).filter p) := by
  induction l with
  | nil => rfl
  | cons a l ih => rw [List.flatMap_cons, List.flatMap_cons, List.filter_append, ih]

/-- A `flatMap` whose pieces are all empty except one collapses to
that piece. -/
lemma flatMap_eq_single {α β : Type} :
    ∀ (ds : List α) (f : α → List β) (x : α), x ∈ ds → ds.Nodup →
      (∀ y ∈ ds, y ≠ x → f y = []) → ds.flatMap f = f x := by
  intro ds
  induction ds with
  | nil => intro f x hx; exact absurd hx (List.not_mem_nil x)
  | cons a ds ih =>
      intro f x hx hnd hother
      rw [List.flatMap_cons]
      rcases List.mem_cons.mp hx with hxa | hxds
      · subst hxa
        have hrest : ds.flatMap f = [] := by
          apply List.flatMap_eq_nil_iff.mpr
          intro y hy
          exact hother y (List.mem_cons_of_mem x hy)
            (fun hyx => (List.nodup_cons.mp hnd).1 (hyx ▸ hy))
        rw [hrest, List.append_nil]
      · have hax : a ≠ x := fun hax => (List.nodup_cons.mp hnd).1 (hax ▸ hxds)
        rw [hother a (List.mem_cons_self a ds) hax, List.nil_append]
        exact ih f x hxds (List.nodup_cons.mp hnd).2
          (fun y hy hyx => hother y (List.mem_cons_of_mem a hy) hyx)

/-- Within one day column, filtering the melted batch for a project
name lists exactly the slots of that name with positive hours, in
grid order. -/
lemma dayGroup_filter {P : String} {d : Nat} (hP : P ≠ "") :
    ∀ g : List Slot,
      (g.filterMap (fun s =>
          if 0 < s.hours.getD d 0 ∧ s.project ≠ "" then
            some (⟨s.project, d, s.hours.getD d 0⟩ : Cell)
          else none)).filter (fun c => c.project == P && c.day == d) =
        (cellsAt g P d).map (fun s => (⟨P, d, s.hours.getD d 0⟩ : Cell)) := by
  intro g
  induction g with
  | nil => rfl
  | cons s g' ih =>
      unfold cellsAt at ih ⊢
      by_cases hcond : 0 < s.hours.getD d 0 ∧ s.project ≠ ""
      · have hfa : (fun s : Slot =>
            if 0 < s.hours.getD d 0 ∧ s.project ≠ "" then
              some (⟨s.project, d, s.hours.getD d 0⟩ : Cell)
            else none) s = some (⟨s.project, d, s.hours.getD d 0⟩ : Cell) :=
          if_pos hcond
        rw [@List.filterMap_cons_some Slot Cell
          (fun s : Slot =>
            if 0 < s.hours.getD d 0 ∧ s.project ≠ "" then
              some (⟨s.project, d, s.hours.getD d 0⟩ : Cell)
            else none) s g' (⟨s.project, d, s.hours.getD d 0⟩ : Cell) hfa]
        by_cases hsp : s.project = P
        · have hpred : (((⟨s.project, d, s.hours.getD d 0⟩ : Cell)).project == P &&
              ((⟨s.project, d, s.hours.getD d 0⟩ : Cell)).day == d) = true := by
            simp [hsp]
          have hcell : (s.project == P && decide (0 < s.hours.getD d 0)) = true := by
            rw [hsp, decide_eq_true hcond.1, Bool.and_true]
            exact beq_self_eq_true P
          rw [List.filter_cons, if_pos hpred, List.filter_cons, if_pos hcell,
            List.map_cons, ih, hsp]
        · have hpred : (((⟨s.project, d, s.hours.getD d 0⟩ : Cell)).project == P &&
              ((⟨s.project, d, s.hours.getD d 0⟩ : Cell)).day == d) = false := by
            simp [hsp]
          have hcell : (s.project == P && decide (0 < s.hours.getD d 0)) = false := by
            simp [hsp]
          rw [List.filter_cons, if_neg (by rw [hpred]; exact Bool.false_ne_true),
            List.filter_cons, if_neg (by rw [hcell]; exact Bool.false_ne_true)]
          exact ih
      · have hfa : (fun s : Slot =>
            if 0 < s.hours.getD d 0 ∧ s.project ≠ "" then
              some (⟨s.project, d, s.hours.getD d 0⟩ : Cell)
            else none) s = none :=
          if_neg hcond
        rw [@List.filterMap_cons_none Slot Cell
          (fun s : Slot =>
            if 0 < s.hours.getD d 0 ∧ s.project ≠ "" then
              some (⟨s.project, d, s.hours.getD d 0⟩ : Cell)
            else none) s g' hfa]
        have hcell : (s.project == P && decide (0 < s.hours.getD d 0)) = false := by
          by_cases hsp : s.project = P
          · have hnpos : ¬0 < s.hours.getD d 0 := fun hpos =>
              hcond ⟨hpos, by rw [hsp]; exact hP⟩
            rw [decide_eq_false hnpos, Bool.and_false]
          · have hbeq : (s.project == P) = false := by simpa using hsp
            rw [hbeq, Bool.false_and]
        rw [List.filter_cons, if_neg (by rw [hcell]; exact Bool.false_ne_true)]
        exact ih

/-- Filtering the whole melted batch for one project name and one day
column lists exactly the slots of that name with positive hours in
that column, in grid order. -/
lemma filter_meltFilter {g : List Slot} {P : String} {d : Nat} (hd : d < 7)
    (hP : P ≠ "") :
    (meltFilter g).filter (fun c => c.project == P && c.day == d) =
      (cellsAt g P d).map (fun s => (⟨P, d, s.hours.getD d 0⟩ : Cell)) := by
  unfold meltFilter
  rw [filter_flatMap]
  rw [flatMap_eq_single (List.range 7) _ d (List.mem_range.mpr hd)
    (List.nodup_range 7) ?_]
  · exact dayGroup_filter hP g
  · intro d' hd' hne
    apply List.filter_eq_nil_iff.mpr
    intro cl hcl
    rw [List.mem_filterMap] at hcl
    obtain ⟨s, hs, hsc⟩ := hcl
    by_cases hcond : 0 < s.hours.getD d' 0 ∧ s.project ≠ ""
    · rw [if_pos hcond] at hsc
      have hday : cl.day = d' := by rw [← Option.some_inj.mp hsc]
      simp [hday, hne]
    · rw [if_neg hcond] at hsc
      cases hsc

/-- With unique natural keys, the rows matching a found key are
exactly the found row. -/
lemma filter_key_of_nodup :
    ∀ {l : List Fact}, (l.map factKey).Nodup →
      ∀ {vol pid : Nat} {d : Int} {f : Fact},
        l.find? (factKeyMatches vol pid d) = some f →
        l.filter (factKeyMatches vol pid d) = [f] := by
  intro l
  induction l with
  | nil => intro _ vol pid d f h; cases h
  | cons a l ih =>
      intro hnd vol pid d f h
      rw [List.map_cons, List.nodup_cons] at hnd
      by_cases hpa : factKeyMatches vol pid d a = true
      · rw [List.find?_cons_of_pos l hpa] at h
        have hae : a = f := Option.some_inj.mp h
        rw [List.filter_cons, if_pos hpa, hae]
        have hrest : l.filter (factKeyMatches vol pid d) = [] := by
          apply List.filter_eq_nil_iff.mpr
          intro b hb hpb
          apply hnd.1
          obtain ⟨hb1, hb2, hb3⟩ := factKeyMatches_iff.mp hpb
          obtain ⟨ha1, ha2, ha3⟩ := factKeyMatches_iff.mp hpa
          have : factKey b = factKey a := by
            simp [factKey, hb1, hb2, hb3, ha1, ha2, ha3]
          rw [← this]
          exact List.mem_map_of_mem factKey hb
        rw [hrest]
      · rw [List.find?_cons_of_neg l hpa] at h
        rw [List.filter_cons, if_neg (by simpa using hpa)]
        exact ih hnd.2 h

/-! ## C6: duplicate slots and last-write-wins -/

/-- C6: when project name `P` appears (with positive hours in day
column `d`) in exactly two grid slots `s₁` before `s₂`, the save
persists exactly one fact at the resolved (volunteer, project, date)
key, and its hours are the value of the later slot `s₂` — the two
slots' hours are never summed. -/
theorem duplicate_slots_last_write_wins (db : DB) (vol : Nat) (anchor : Int)
    (g : List Slot) (st : Status) (P : String) (d : Nat) (s₁ s₂ : Slot)
    (hwf : db.WF) (hd : d < 7) (hP : P ≠ "")
    (hdup : cellsAt g P d = [s₁, s₂]) :
    ∃ p f, findProject (save_to_database db vol anchor g st).projects P = some p ∧
      (save_to_database db vol anchor g st).timesheets.filter
          (factKeyMatches vol p.pid (anchor + d)) = [f] ∧
      f.hours = s₂.hours.getD d 0 ∧ f.status = st := by
  have hlast : lastCell (meltFilter g) P d = some (s₂.hours.getD d 0) := by
    unfold lastCell
    rw [filter_meltFilter hd hP, hdup]
    rfl
  obtain ⟨p, hp, hpname, f, hf, hfh, hfs⟩ :=
    save_post vol anchor st (meltFilter g) hwf hlast
  exact ⟨p, f, hp,
    filter_key_of_nodup (WF_save vol anchor st (meltFilter g) hwf).keysNodup hf,
    hfh, hfs⟩

/-- Witness for C6: a fresh database and a two-slot grid in which
project "P" has 1 hour in the first slot and 2 hours in the second,
both in day column 0. -/
theorem duplicate_slots_last_write_wins_witness :
    DB.WF emptyDB ∧
    cellsAt [⟨"P", [1, 0, 0, 0, 0, 0, 0]⟩, ⟨"P", [2, 0, 0, 0, 0, 0, 0]⟩] "P" 0 =
      [⟨"P", [1, 0, 0, 0, 0, 0, 0]⟩, ⟨"P", [2, 0, 0, 0, 0, 0, 0]⟩] ∧
    (∃ p f, findProject (save_to_database emptyDB 1 0
          [⟨"P", [1, 0, 0, 0, 0, 0, 0]⟩, ⟨"P", [2, 0, 0, 0, 0, 0, 0]⟩] .Saved).projects
          "P" = some p ∧
      (save_to_database emptyDB 1 0
          [⟨"P", [1, 0, 0, 0, 0, 0, 0]⟩, ⟨"P", [2, 0, 0, 0, 0, 0, 0]⟩] .Saved).timesheets.filter
          (factKeyMatches 1 p.pid 0) = [f] ∧
      f.hours = (⟨"P", [2, 0, 0, 0, 0, 0, 0]⟩ : Slot).hours.getD 0 0 ∧
      f.status = Status.Saved) :=
  ⟨emptyDB_WF, by decide,
    duplicate_slots_last_write_wins emptyDB 1 0
      [⟨"P", [1, 0, 0, 0, 0, 0, 0]⟩, ⟨"P", [2, 0, 0, 0, 0, 0, 0]⟩] .Saved "P" 0
      ⟨"P", [1, 0, 0, 0, 0, 0, 0]⟩ ⟨"P", [2, 0, 0, 0, 0, 0, 0]⟩
      emptyDB_WF (by decide) (by decide) (by decide)⟩

/-! ## C7: which cells are filtered before persisting -/

/-- C7 amended: the reconciler's filter keeps exactly the cells with
positive hours and a project name different from the empty string
(whitespace-only names are kept), and consequently every row a save
writes has positive hours and a project whose name is a nonempty
string — a cell with hours ≤ 0 or an exactly-empty project name never
produces a persisted fact. -/
theorem reconciler_filters_zero_and_empty_cells :
    (∀ (g : List Slot) (c : Cell), c ∈ meltFilter g →
      0 < c.hours ∧ c.project ≠ "") ∧
    (∀ (db : DB) (vol : Nat) (anchor : Int) (g : List Slot) (st : Status), db.WF →
      ∀ f' ∈ (save_to_database db vol anchor g st).timesheets,
        f' ∈ db.timesheets ∨
          (0 < f'.hours ∧ ∃ p ∈ (save_to_database db vol anchor g st).projects,
            f'.project = p.pid ∧ p.name ≠ "")) := by
  constructor
  · intro g c hc
    obtain ⟨-, hh, hne, -⟩ := mem_meltFilter.mp hc
    exact ⟨hh, hne⟩
  · intro db vol anchor g st hwf f' hf'
    rcases save_mem vol anchor st (meltFilter g) hwf hf' with
      hold | ⟨c, hc, -, -, hh, -, p, hp, hpid, hpname⟩
    · exact Or.inl hold
    · obtain ⟨-, hch, hcne, -⟩ := mem_meltFilter.mp hc
      right
      exact ⟨by rw [hh]; exact hch, p, (findProject_some hp).1, hpid,
        by rw [hpname]; exact hcne⟩

/-- Witness for the C7 amended theorem, at the fresh database and a
one-cell grid. -/
theorem reconciler_filters_zero_and_empty_cells_witness :
    (⟨1, 1, 1, 0, 1, .Saved⟩ : Fact) ∈ emptyDB.timesheets ∨
      (0 < (⟨1, 1, 1, 0, 1, .Saved⟩ : Fact).hours ∧
        ∃ p ∈ (save_to_database emptyDB 1 0
            [⟨"A", [1, 0, 0, 0, 0, 0, 0]⟩] .Saved).projects,
          (⟨1, 1, 1, 0, 1, .Saved⟩ : Fact).project = p.pid ∧ p.name ≠ "") :=
  reconciler_filters_zero_and_empty_cells.2 emptyDB 1 0
    [⟨"A", [1, 0, 0, 0, 0, 0, 0]⟩] .Saved emptyDB_WF
    ⟨1, 1, 1, 0, 1, .Saved⟩ (by decide)

/-! ## Helpers for the round-trip: grids, pivots, joins -/

/-- Membership in the non-blank cells of a grid. -/
lemma mem_posCells {g : List Slot} {n : String} {d : Nat} {h : ℚ} :
    (n, d, h) ∈ posCells g ↔
      d < 7 ∧ 0 < h ∧ ∃ s ∈ g, s.project = n ∧ s.hours.getD d 0 = h := by
  unfold posCells
  rw [List.mem_flatMap]
  constructor
  · rintro ⟨s, hs, hmem⟩
    rw [List.mem_filterMap] at hmem
    obtain ⟨d', hd', hsome⟩ := hmem
    by_cases hpos : 0 < s.hours.getD d' 0
    · rw [if_pos hpos] at hsome
      have htrip := Option.some_inj.mp hsome
      rw [Prod.mk.injEq, Prod.mk.injEq] at htrip
      obtain ⟨h1, h2, h3⟩ := htrip
      subst h2
      exact ⟨List.mem_range.mp hd', h3 ▸ hpos, s, hs, h1, h3⟩
    · rw [if_neg hpos] at hsome
      cases hsome
  · rintro ⟨hd, hh, s, hs, hsp, hsh⟩
    exact ⟨s, hs, List.mem_filterMap.mpr ⟨d, List.mem_range.mpr hd,
      by rw [if_pos (by rw [hsh]; exact hh), hsp, hsh]⟩⟩

/-- Membership in an insertion step of the pivot-index sort. -/
lemma mem_insertAsc {x y : String} :
    ∀ {l : List String}, x ∈ insertAsc y l ↔ x = y ∨ x ∈ l := by
  intro l
  induction l with
  | nil => simp [insertAsc]
  | cons z zs ih =>
      unfold insertAsc
      by_cases hyz : y ≤ z
      · rw [if_pos hyz]
        simp
      · rw [if_neg hyz]
        rw [List.mem_cons, ih, List.mem_cons]
        tauto

/-- The pivot-index sort preserves membership. -/
lemma mem_sortAsc {x : String} : ∀ {l : List String}, x ∈ sortAsc l ↔ x ∈ l := by
  intro l
  induction l with
  | nil => simp [sortAsc]
  | cons a l ih =>
      show x ∈ insertAsc a (sortAsc l) ↔ _
      rw [mem_insertAsc, ih, List.mem_cons]

/-- The insertion step grows the length by one. -/
lemma length_insertAsc (y : String) :
    ∀ l : List String, (insertAsc y l).length = l.length + 1 := by
  intro l
  induction l with
  | nil => rfl
  | cons z zs ih =>
      unfold insertAsc
      by_cases hyz : y ≤ z
      · rw [if_pos hyz]
        rfl
      · rw [if_neg hyz, List.length_cons, ih, List.length_cons]

/-- The pivot-index sort preserves length. -/
lemma length_sortAsc : ∀ l : List String, (sortAsc l).length = l.length := by
  intro l
  induction l with
  | nil => rfl
  | cons a l ih =>
      show (insertAsc a (sortAsc l)).length = _
      rw [length_insertAsc, ih, List.length_cons]

/-- Indexing the seven freshly computed pivot columns. -/
lemma getD_map_range (fn : Nat → ℚ) {d n : Nat} (hd : d < n) :
    ((List.range n).map fn).getD d 0 = fn d := by
  rw [List.getD_eq_getElem?_getD, List.getElem?_map, List.getElem?_range hd]
  rfl

/-- Blank rows hold only zeros. -/
lemma getD_blankSlot (d : Nat) : blankSlot.hours.getD d 0 = 0 := by
  show (List.replicate 7 (0 : ℚ)).getD d 0 = 0
  rw [List.getD_eq_getElem?_getD]
  rcases lt_or_ge d 7 with hd | hd
  · rw [List.getElem?_replicate_of_lt hd]
    rfl
  · rw [List.getElem?_eq_none (by simpa using hd)]
    rfl

/-- A duplicate-free list included in another duplicate-free list is
no longer than it. -/
lemma nodup_subset_length {l₁ l₂ : List String} (h1 : l₁.Nodup) (hsub : l₁ ⊆ l₂) :
    l₁.length ≤ l₂.length := by
  have hf : l₁.toFinset ⊆ l₂.toFinset := by
    intro x hx
    rw [List.mem_toFinset] at hx ⊢
    exact hsub hx
  calc l₁.length = l₁.toFinset.card := (List.toFinset_card_of_nodup h1).symm
    _ ≤ l₂.toFinset.card := Finset.card_le_card hf
    _ ≤ l₂.length := List.toFinset_card_le l₂

/-- Looking a project up by id finds the (unique) member row with
that id. -/
lemma find?_pid_of_mem {ps : List Project} (hnd : (ps.map Project.pid).Nodup)
    {p : Project} (hp : p ∈ ps) :
    ps.find? (fun q => q.pid == p.pid) = some p := by
  cases hfind : ps.find? (fun q => q.pid == p.pid) with
  | none =>
      have := List.find?_eq_none.mp hfind p hp
      simp at this
  | some q =>
      have hq : q.pid = p.pid := by simpa using List.find?_some hfind
      have hqm := List.mem_of_find?_eq_some hfind
      rw [List.inj_on_of_nodup_map hnd hqm hp hq]

/-- `filter` slides through `filterMap`. -/
lemma filterMap_filter_comm {α β : Type} (F : α → Option β) (p : β → Bool) :
    ∀ l : List α,
      (l.filterMap F).filter p =
        l.filterMap (fun x => (F x).bind (fun b => if p b then some b else none)) := by
  intro l
  induction l with
  | nil => rfl
  | cons a l ih =>
      cases hFa : F a with
      | none =>
          rw [List.filterMap_cons_none hFa,
            @List.filterMap_cons_none α β
              (fun x => (F x).bind (fun b => if p b then some b else none)) a l
              (by show (F a).bind (fun b => if p b then some b else none) = none
                  rw [hFa]
                  rfl),
            ih]
      | some b =>
          rw [List.filterMap_cons_some hFa]
          by_cases hpb : p b = true
          · rw [List.filter_cons, if_pos hpb,
              @List.filterMap_cons_some α β
                (fun x => (F x).bind (fun b => if p b then some b else none)) a l b
                (by show (F a).bind (fun b => if p b then some b else none) = some b
                    rw [hFa]
                    show (if p b then some b else none) = some b
                    rw [if_pos hpb]),
              ih]
          · rw [List.filter_cons, if_neg (by simpa using hpb),
              @List.filterMap_cons_none α β
                (fun x => (F x).bind (fun b => if p b then some b else none)) a l
                (by show (F a).bind (fun b => if p b then some b else none) = none
                    rw [hFa]
                    show (if p b then some b else none) = none
                    rw [if_neg hpb]),
              ih]

/-- A guarded `filterMap` is a `filter` followed by a `filterMap`. -/
lemma filterMap_guard {α β : Type} (p : α → Bool) (F : α → Option β) :
    ∀ l : List α,
      l.filterMap (fun x => if p x then F x else none) = (l.filter p).filterMap F := by
  intro l
  induction l with
  | nil => rfl
  | cons a l ih =>
      by_cases hpa : p a = true
      · rw [List.filter_cons, if_pos hpa]
        cases hFa : F a with
        | none =>
            rw [List.filterMap_cons_none (by rw [if_pos hpa]; exact hFa),
              List.filterMap_cons_none hFa, ih]
        | some b =>
            rw [List.filterMap_cons_some (by rw [if_pos hpa]; exact hFa),
              List.filterMap_cons_some hFa, ih]
      · rw [List.filter_cons, if_neg (by simpa using hpa),
          List.filterMap_cons_none (by rw [if_neg hpa]), ih]

/-- With pairwise-distinct slot names, at most one slot carries a
given name with positive hours in a given column. -/
lemma cellsAt_len_le_one :
    ∀ {g : List Slot}, (g.map Slot.project).Nodup →
      ∀ (P : String) (d : Nat), (cellsAt g P d).length ≤ 1 := by
  intro g
  induction g with
  | nil => intro _ P d; simp [cellsAt]
  | cons s g' ih =>
      intro hnm P d
      rw [List.map_cons, List.nodup_cons] at hnm
      unfold cellsAt
      rw [List.filter_cons]
      by_cases hps : (s.project == P && decide (0 < s.hours.getD d 0)) = true
      · rw [if_pos hps]
        have hrest : g'.filter
            (fun s' => s'.project == P && decide (0 < s'.hours.getD d 0)) = [] := by
          apply List.filter_eq_nil_iff.mpr
          intro x hx hpx
          apply hnm.1
          have hxP : x.project = P := by
            have hpx2 := hpx
            simp at hpx2
            exact hpx2.1
          have hsP : s.project = P := by
            have hps2 := hps
            simp at hps2
            exact hps2.1
          rw [hsP, ← hxP]
          exact List.mem_map_of_mem Slot.project hx
        rw [hrest]
        simp
      · rw [if_neg (by simpa using hps)]
        exact ih hnm.2 P d

/-- With pairwise-distinct slot names, each melted cell is the only
one of its project name and day column. -/
lemma meltFilter_unique {g : List Slot} (hnm : (g.map Slot.project).Nodup)
    {c : Cell} (hc : c ∈ meltFilter g) :
    (meltFilter g).filter (fun c' => c'.project == c.project && c'.day == c.day)
      = [c] := by
  obtain ⟨hd, hh, hP, s, hs, hsp, hsh⟩ := mem_meltFilter.mp hc
  rw [filter_meltFilter hd hP]
  have hcmem : c ∈ (cellsAt g c.project c.day).map
      (fun s => (⟨c.project, c.day, s.hours.getD c.day 0⟩ : Cell)) := by
    rw [← filter_meltFilter hd hP]
    exact List.mem_filter.mpr ⟨hc, by simp⟩
  have hlen := cellsAt_len_le_one hnm c.project c.day
  cases hcs : cellsAt g c.project c.day with
  | nil =>
      rw [hcs] at hcmem
      simp at hcmem
  | cons s₀ rest =>
      have hrest : rest = [] := by
        rw [hcs, List.length_cons] at hlen
        cases rest with
        | nil => rfl
        | cons x xs => rw [List.length_cons] at hlen; omega
      subst hrest
      rw [hcs] at hcmem
      rw [List.map_cons, List.map_nil] at hcmem ⊢
      have hce : c = ⟨c.project, c.day, s₀.hours.getD c.day 0⟩ := by
        simpa using hcmem
      rw [← hce]

/-- Membership in the loader's week window. -/
lemma mem_week_facts {db : DB} {vol : Nat} {anchor : Int} {f : Fact} :
    f ∈ week_facts db vol anchor ↔
      f ∈ db.timesheets ∧ f.volunteer = vol ∧ anchor ≤ f.date ∧ f.date ≤ anchor + 6 := by
  unfold week_facts
  rw [List.mem_filter]
  simp [and_assoc]

/-- After a save into an empty window, every fact the loader's window
query returns stems from one melted cell of the saved grid. -/
lemma window_fact_from_cell {db : DB} {vol : Nat} {anchor : Int} {g : List Slot}
    {st : Status} (hwf : db.WF)
    (hwin : ∀ f ∈ db.timesheets, f.volunteer = vol →
      ¬(anchor ≤ f.date ∧ f.date ≤ anchor + 6))
    {f' : Fact}
    (hmem : f' ∈ week_facts (save_to_database db vol anchor g st) vol anchor) :
    ∃ c ∈ meltFilter g, f'.volunteer = vol ∧ f'.date = anchor + c.day ∧
      f'.hours = c.hours ∧ f'.status = st ∧
      ∃ p, findProject (save_to_database db vol anchor g st).projects c.project
          = some p ∧ f'.project = p.pid ∧ p.name = c.project := by
  obtain ⟨hmem', hfv, hfd1, hfd2⟩ := mem_week_facts.mp hmem
  rcases save_mem vol anchor st (meltFilter g) hwf hmem' with hold | hcell
  · exact absurd ⟨hfd1, hfd2⟩ (hwin f' hold hfv)
  · exact hcell

/-- Round-trip core: after saving a distinct-name grid into an empty
window, the loader's joined entries for one saved cell's project name
and date are exactly that cell's single entry. -/
lemma week_entries_filter_singleton
    (db : DB) (vol : Nat) (anchor : Int) (g : List Slot) (st : Status)
    (hwf : db.WF)
    (hnm : (g.map Slot.project).Nodup)
    {n : String} {d : Nat} {h : ℚ} (hc : (⟨n, d, h⟩ : Cell) ∈ meltFilter g) :
    (week_entries (save_to_database db vol anchor g st) vol anchor).filter
        (fun e => e.2.1 == n && e.1 == anchor + d) =
      [(anchor + (d : Int), n, h)] := by
  have hwfR : (save_to_database db vol anchor g st).WF :=
    WF_save vol anchor st (meltFilter g) hwf
  have hd7 : d < 7 := (mem_meltFilter.mp hc).1
  have hlast : lastCell (meltFilter g) n d = some h := by
    unfold lastCell
    have huniq : (meltFilter g).filter (fun c' => c'.project == n && c'.day == d)
        = [⟨n, d, h⟩] := meltFilter_unique hnm hc
    rw [huniq]
    rfl
  obtain ⟨p, hp, hpname, f, hf, hfh, hfs⟩ :=
    save_post vol anchor st (meltFilter g) hwf hlast
  obtain ⟨hfm, hfv, hfp, hfd⟩ := factAt_some hf
  have hkeyfilter : (save_to_database db vol anchor g st).timesheets.filter
        (factKeyMatches vol p.pid (anchor + d)) = [f] :=
    filter_key_of_nodup hwfR.keysNodup hf
  show ((week_facts (save_to_database db vol anchor g st) vol anchor).filterMap
      (fun f0 =>
        ((save_to_database db vol anchor g st).projects.find?
            (fun q => q.pid == f0.project)).map
          (fun q => (f0.date, q.name, f0.hours)))).filter
      (fun e => e.2.1 == n && e.1 == anchor + d) = _
  rw [filterMap_filter_comm]
  have hptwise : ∀ f0 ∈ week_facts (save_to_database db vol anchor g st) vol anchor,
      (((save_to_database db vol anchor g st).projects.find?
          (fun q => q.pid == f0.project)).map
        (fun q => (f0.date, q.name, f0.hours))).bind
        (fun e => if (e.2.1 == n && e.1 == anchor + d) = true then some e else none) =
      (if factKeyMatches vol p.pid (anchor + d) f0 = true then
        ((save_to_database db vol anchor g st).projects.find?
            (fun q => q.pid == f0.project)).map
          (fun q => (f0.date, q.name, f0.hours))
      else none) := by
    intro f0 hf0
    obtain ⟨hf0m, hf0v, -, -⟩ := mem_week_facts.mp hf0
    cases hj : (save_to_database db vol anchor g st).projects.find?
        (fun q => q.pid == f0.project) with
    | none => simp [hj]
    | some q =>
        have hqpid : q.pid = f0.project := by simpa using List.find?_some hj
        have hqm := List.mem_of_find?_eq_some hj
        have h2 : (q.name == n) = (f0.project == p.pid) := by
          apply Bool.eq_iff_iff.mpr
          simp only [beq_iff_eq]
          constructor
          · intro hqn
            have hqp : q = p := List.inj_on_of_nodup_map hwfR.namesNodup hqm
              (findProject_some hp).1 (by rw [hqn, hpname])
            rw [← hqpid, hqp]
          · intro hpp
            have hqp : q = p := pid_inj hwfR hqm (findProject_some hp).1
              (by rw [hqpid, hpp])
            rw [hqp, hpname]
        have h1 : (f0.volunteer == vol) = true := by simp [hf0v]
        have hkey : factKeyMatches vol p.pid (anchor + (d : Int)) f0 =
            (q.name == n && (f0.date == anchor + d)) := by
          unfold factKeyMatches
          rw [h1, Bool.true_and, ← h2]
        rw [hkey]
        show (if (q.name == n && f0.date == anchor + d) = true then
            some (f0.date, q.name, f0.hours) else none) = _
        rfl
  rw [List.filterMap_congr hptwise]
  rw [filterMap_guard]
  have hwfilter : (week_facts (save_to_database db vol anchor g st) vol anchor).filter
      (factKeyMatches vol p.pid (anchor + d)) = [f] := by
    unfold week_facts
    rw [List.filter_filter]
    rw [List.filter_congr ?_]
    · exact hkeyfilter
    · intro f0 _
      by_cases hk : factKeyMatches vol p.pid (anchor + (d : Int)) f0 = true
      · obtain ⟨w1, w2, w3⟩ := factKeyMatches_iff.mp hk
        rw [hk]
        simp only [Bool.true_and]
        rw [w1, w3]
        simp only [beq_self_eq_true, Bool.true_and]
        rw [decide_eq_true (by omega : anchor ≤ anchor + (d : Int)),
          decide_eq_true (by omega : anchor + (d : Int) ≤ anchor + 6)]
        rfl
      · have hkf : factKeyMatches vol p.pid (anchor + (d : Int)) f0 = false := by
          simpa using hk
        rw [hkf, Bool.false_and]
  rw [hwfilter]
  have hjoinf : ((save_to_database db vol anchor g st).projects.find?
      (fun q => q.pid == f.project)).map (fun q => (f.date, q.name, f.hours)) =
      some (anchor + (d : Int), n, h) := by
    rw [hfp]
    rw [find?_pid_of_mem hwfR.pidsNodup (findProject_some hp).1]
    show some (f.date, p.name, f.hours) = some (anchor + (d : Int), n, h)
    rw [hfd, hpname, hfh]
  rw [@List.filterMap_cons_some Fact (Int × String × ℚ)
    (fun x => ((save_to_database db vol anchor g st).projects.find?
        (fun q => q.pid == x.project)).map (fun q => (x.date, q.name, x.hours)))
    f [] (anchor + (d : Int), n, h) hjoinf]
  rfl

/-! ## C5: the save/load round-trip -/

/-- C5: for a grid with pairwise-distinct, nonempty project names and
at most 5 slots, saving its values for a week whose window holds no
prior facts of the volunteer and then immediately loading that week's
grid returns a grid whose non-blank cells are exactly the saved
grid's non-blank cells. -/
theorem save_then_load_roundtrip (db : DB) (vol : Nat) (anchor : Int)
    (g : List Slot) (st : Status)
    (hwf : db.WF)
    (hwin : ∀ f ∈ db.timesheets, f.volunteer = vol →
      ¬(anchor ≤ f.date ∧ f.date ≤ anchor + 6))
    (hnm : (g.map Slot.project).Nodup)
    (hne : ∀ s ∈ g, s.project ≠ "")
    (hlen : g.length ≤ 5) :
    ∀ (n : String) (d : Nat) (h : ℚ),
      (n, d, h) ∈ posCells (create_timesheet_dataframe
          (save_to_database db vol anchor g st) vol anchor) ↔
      (n, d, h) ∈ posCells g := by
  intro n d h
  have hwfR : (save_to_database db vol anchor g st).WF :=
    WF_save vol anchor st (meltFilter g) hwf
  -- every joined entry of the loaded window stems from one melted cell
  have hnames : ∀ e ∈ week_entries (save_to_database db vol anchor g st) vol anchor,
      ∃ c ∈ meltFilter g, e.2.1 = c.project ∧ e.1 = anchor + c.day ∧
        e.2.2 = c.hours := by
    intro e he
    unfold week_entries at he
    obtain ⟨f0, hf0, hj⟩ := List.mem_filterMap.mp he
    obtain ⟨c, hcm, hv, hdate, hhours, hstx, p', hp', hproj, hpn⟩ :=
      window_fact_from_cell hwf hwin hf0
    cases hfind : (save_to_database db vol anchor g st).projects.find?
        (fun q => q.pid == f0.project) with
    | none =>
        rw [hfind] at hj
        cases hj
    | some q =>
        rw [hfind] at hj
        have he' : e = (f0.date, q.name, f0.hours) := (Option.some_inj.mp hj).symm
        have hq : q = p' := by
          have hqpid : q.pid = f0.project := by simpa using List.find?_some hfind
          exact pid_inj hwfR (List.mem_of_find?_eq_some hfind)
            (findProject_some hp').1 (by rw [hqpid, hproj])
        refine ⟨c, hcm, ?_, ?_, ?_⟩ <;> rw [he']
        · show q.name = c.project
          rw [hq, hpn]
        · show f0.date = anchor + (c.day : Int)
          exact hdate
        · show f0.hours = c.hours
          exact hhours
  -- the pivot index never exceeds the slot count
  have hrowlen :
      (pivotNames (week_entries (save_to_database db vol anchor g st) vol anchor)).length
        ≤ 5 := by
    unfold pivotNames
    rw [length_sortAsc]
    have hsub : ((week_entries (save_to_database db vol anchor g st) vol anchor).map
        (fun e => e.2.1)).dedup ⊆ g.map Slot.project := by
      intro x hx
      have hx' := List.dedup_subset _ hx
      obtain ⟨e, he, hex⟩ := List.mem_map.mp hx'
      obtain ⟨c, hcm, h1, -, -⟩ := hnames e he
      obtain ⟨-, -, -, s, hs, hsp, -⟩ := mem_meltFilter.mp hcm
      rw [← hex, h1, ← hsp]
      exact List.mem_map_of_mem Slot.project hs
    calc ((week_entries (save_to_database db vol anchor g st) vol anchor).map
          (fun e => e.2.1)).dedup.length
        ≤ (g.map Slot.project).length :=
          nodup_subset_length (List.nodup_dedup _) hsub
      _ = g.length := List.length_map g Slot.project
      _ ≤ 5 := hlen
  constructor
  · -- loaded cell comes from the grid
    intro hpos
    obtain ⟨hd7, hh0, srow, hsrow, hsp, hsh⟩ := mem_posCells.mp hpos
    by_cases hemp : (week_entries (save_to_database db vol anchor g st)
        vol anchor).isEmpty = true
    · simp only [create_timesheet_dataframe] at hsrow
      rw [if_pos hemp] at hsrow
      have hblank := List.eq_of_mem_replicate hsrow
      have hzero : h = 0 := by rw [← hsh, hblank, getD_blankSlot]
      rw [hzero] at hh0
      exact absurd hh0 (lt_irrefl 0)
    · simp only [create_timesheet_dataframe] at hsrow
      rw [if_neg hemp] at hsrow
      have hsrow' : srow ∈
          (pivotNames (week_entries (save_to_database db vol anchor g st)
              vol anchor)).map (fun n0 =>
            Slot.mk n0 ((List.range 7).map (fun (j : Nat) =>
              pivotValue (week_entries (save_to_database db vol anchor g st)
                vol anchor) n0 (anchor + (j : Int))))) ++
          (if (pivotNames (week_entries (save_to_database db vol anchor g st)
              vol anchor)).contains "" = true then []
            else List.replicate 5 blankSlot) := by
        by_cases hbig : 5 < ((pivotNames (week_entries
            (save_to_database db vol anchor g st) vol anchor)).map (fun n0 =>
              Slot.mk n0 ((List.range 7).map (fun (j : Nat) =>
                pivotValue (week_entries (save_to_database db vol anchor g st)
                  vol anchor) n0 (anchor + (j : Int))))) ++
            (if (pivotNames (week_entries (save_to_database db vol anchor g st)
                vol anchor)).contains "" = true then []
              else List.replicate 5 blankSlot)).length
        · rw [if_pos hbig] at hsrow
          exact List.mem_of_mem_take hsrow
        · rw [if_neg hbig] at hsrow
          exact hsrow
      rcases List.mem_append.mp hsrow' with hrows | htemp
      · obtain ⟨n₀, hn₀, hrow⟩ := List.mem_map.mp hrows
        have hn0 : n₀ = n := by
          have hpr := congrArg Slot.project hrow
          rw [hsp] at hpr
          exact hpr
        have hpveq : pivotValue (week_entries (save_to_database db vol anchor g st)
            vol anchor) n (anchor + d) = h := by
          have h1 : ((List.range 7).map (fun (j : Nat) =>
              pivotValue (week_entries (save_to_database db vol anchor g st)
                vol anchor) n₀ (anchor + (j : Int)))).getD d 0 = srow.hours.getD d 0 :=
            congrArg (fun s : Slot => s.hours.getD d 0) hrow
          rw [hsh] at h1
          rw [← hn0]
          rw [← getD_map_range (fun (j : Nat) =>
            pivotValue (week_entries (save_to_database db vol anchor g st)
              vol anchor) n₀ (anchor + (j : Int))) hd7]
          exact h1
        have hfne : ((week_entries (save_to_database db vol anchor g st)
            vol anchor).filter (fun e => e.2.1 == n && e.1 == anchor + d)) ≠ [] := by
          intro hnil
          rw [← hpveq] at hh0
          unfold pivotValue at hh0
          rw [hnil] at hh0
          simp at hh0
        obtain ⟨e, he⟩ := List.exists_mem_of_ne_nil _ hfne
        have heme := List.mem_of_mem_filter he
        have hepred := (List.mem_filter.mp he).2
        obtain ⟨c, hcm, hcname, hcdate, hchours⟩ := hnames e heme
        have hen : e.2.1 = n ∧ e.1 = anchor + (d : Int) := by simpa using hepred
        have hcpn : c.project = n := by rw [← hcname, hen.1]
        have hcdd : c.day = d := by
          have hcd : anchor + (c.day : Int) = anchor + d := by rw [← hcdate, hen.2]
          omega
        have hceq : c = ⟨n, d, c.hours⟩ := by
          cases c
          simp only [Cell.mk.injEq]
          exact ⟨hcpn, hcdd, trivial⟩
        have hsing2 := week_entries_filter_singleton db vol anchor g st hwf hnm
          (hceq ▸ hcm)
        have hpvc : pivotValue (week_entries (save_to_database db vol anchor g st)
            vol anchor) n (anchor + d) = c.hours := by
          unfold pivotValue
          rw [hsing2]
          simp
        have hhc : h = c.hours := by rw [← hpveq, hpvc]
        obtain ⟨hcd7, hch0, -, s, hs, hsp', hsh'⟩ := mem_meltFilter.mp (hceq ▸ hcm)
        rw [hhc]
        exact mem_posCells.mpr ⟨hd7, hch0, s, hs, hsp', hsh'⟩
      · by_cases hcont : (pivotNames (week_entries
            (save_to_database db vol anchor g st) vol anchor)).contains "" = true
        · rw [if_pos hcont] at htemp
          simp at htemp
        · rw [if_neg hcont] at htemp
          have hblank := List.eq_of_mem_replicate htemp
          have hzero : h = 0 := by rw [← hsh, hblank, getD_blankSlot]
          rw [hzero] at hh0
          exact absurd hh0 (lt_irrefl 0)
  · -- grid cell survives the round-trip
    intro hpos
    obtain ⟨hd7, hh0, s, hs, hsp, hsh⟩ := mem_posCells.mp hpos
    have hcell : (⟨n, d, h⟩ : Cell) ∈ meltFilter g :=
      mem_meltFilter.mpr ⟨hd7, hh0, by rw [← hsp]; exact hne s hs, s, hs, hsp, hsh⟩
    have hsing := week_entries_filter_singleton db vol anchor g st hwf hnm hcell
    have hentry : (anchor + (d : Int), n, h) ∈
        week_entries (save_to_database db vol anchor g st) vol anchor := by
      have hmemfil : (anchor + (d : Int), n, h) ∈
          (week_entries (save_to_database db vol anchor g st) vol anchor).filter
            (fun e => e.2.1 == n && e.1 == anchor + d) := by
        rw [hsing]
        exact List.mem_singleton.mpr rfl
      exact List.mem_of_mem_filter hmemfil
    have hnpivot : n ∈ pivotNames (week_entries
        (save_to_database db vol anchor g st) vol anchor) := by
      unfold pivotNames
      rw [mem_sortAsc, List.mem_dedup]
      exact List.mem_map.mpr ⟨(anchor + (d : Int), n, h), hentry, rfl⟩
    have hpv : pivotValue (week_entries (save_to_database db vol anchor g st)
        vol anchor) n (anchor + d) = h := by
      unfold pivotValue
      rw [hsing]
      simp
    have hrow : (⟨n, (List.range 7).map (fun (j : Nat) =>
        pivotValue (week_entries (save_to_database db vol anchor g st) vol anchor)
          n (anchor + (j : Int)))⟩ : Slot) ∈
        create_timesheet_dataframe (save_to_database db vol anchor g st) vol anchor := by
      simp only [create_timesheet_dataframe]
      rw [if_neg (fun hEmp => List.ne_nil_of_mem hentry (List.isEmpty_iff.mp hEmp))]
      have hrmem : (⟨n, (List.range 7).map (fun (j : Nat) =>
          pivotValue (week_entries (save_to_database db vol anchor g st) vol anchor)
            n (anchor + (j : Int)))⟩ : Slot) ∈
          (pivotNames (week_entries (save_to_database db vol anchor g st)
              vol anchor)).map (fun n0 =>
            Slot.mk n0 ((List.range 7).map (fun (j : Nat) =>
              pivotValue (week_entries (save_to_database db vol anchor g st)
                vol anchor) n0 (anchor + (j : Int))))) :=
        List.mem_map.mpr ⟨n, hnpivot, rfl⟩
      by_cases hbig : 5 < ((pivotNames (week_entries
          (save_to_database db vol anchor g st) vol anchor)).map (fun n0 =>
            Slot.mk n0 ((List.range 7).map (fun (j : Nat) =>
              pivotValue (week_entries (save_to_database db vol anchor g st)
                vol anchor) n0 (anchor + (j : Int))))) ++
          (if (pivotNames (week_entries (save_to_database db vol anchor g st)
              vol anchor)).contains "" = true then []
            else List.replicate 5 blankSlot)).length
      · rw [if_pos hbig, List.take_append_eq_append_take]
        apply List.mem_append_left
        rw [List.take_of_length_le (by
          rw [List.length_map]
          exact hrowlen)]
        exact hrmem
      · rw [if_neg hbig]
        exact List.mem_append_left _ hrmem
    apply mem_posCells.mpr
    refine ⟨hd7, hh0, _, hrow, rfl, ?_⟩
    show ((List.range 7).map (fun (j : Nat) =>
        pivotValue (week_entries (save_to_database db vol anchor g st) vol anchor)
          n (anchor + (j : Int)))).getD d 0 = h
    rw [getD_map_range _ hd7]
    exact hpv

/-! ## C7 counterexample: whitespace project names -/

/-- C7 counterexample: the claim says a cell whose project name
consists only of whitespace never produces a persisted fact, but the
reconciler's filter is `Project != ""` (app.py line 1030), so saving a
grid whose single cell has project name " " (one space) and 1 hour
persists a fact (and creates a project named " "). -/
theorem whitespace_project_cell_is_persisted :
    (save_to_database ⟨[], [], 1, 1⟩ 1 0 [⟨" ", [1, 0, 0, 0, 0, 0, 0]⟩] .Saved).timesheets =
      [⟨1, 1, 1, 0, 1, .Saved⟩] ∧
    (save_to_database ⟨[], [], 1, 1⟩ 1 0 [⟨" ", [1, 0, 0, 0, 0, 0, 0]⟩] .Saved).projects =
      [⟨1, " "⟩] := by
  constructor
  · rfl
  · rfl

/-- C5 witness: the round-trip theorem instantiated on the empty
database, volunteer 1, week anchor 0, a one-slot grid carrying 1 hour
on the first day, and status Saved. -/
theorem save_then_load_roundtrip_witness :
    DB.WF emptyDB ∧
    (∀ f ∈ emptyDB.timesheets, f.volunteer = 1 → ¬((0:Int) ≤ f.date ∧ f.date ≤ 0 + 6)) ∧
    (([⟨"A", [1, 0, 0, 0, 0, 0, 0]⟩] : List Slot).map Slot.project).Nodup ∧
    (∀ s ∈ ([⟨"A", [1, 0, 0, 0, 0, 0, 0]⟩] : List Slot), s.project ≠ "") ∧
    ([⟨"A", [1, 0, 0, 0, 0, 0, 0]⟩] : List Slot).length ≤ 5 ∧
    (("A", 0, (1:ℚ)) ∈ posCells (create_timesheet_dataframe
        (save_to_database emptyDB 1 0 [⟨"A", [1, 0, 0, 0, 0, 0, 0]⟩] .Saved) 1 0) ↔
      ("A", 0, (1:ℚ)) ∈ posCells [⟨"A", [1, 0, 0, 0, 0, 0, 0]⟩]) :=
  ⟨emptyDB_WF, (by intro f hf; cases hf), (by decide), (by decide), (by decide),
    save_then_load_roundtrip emptyDB 1 0 [⟨"A", [1, 0, 0, 0, 0, 0, 0]⟩] .Saved
      emptyDB_WF (by intro f hf; cases hf) (by decide) (by decide) (by decide)
      "A" 0 1⟩

end VolunteeringPortal
